import Mathlib

/-!
Shallow embedding of the voice-party SFU signaling server.

Sources embedded here:
* `apps/sfu/src/token.ts` (src/unnamed/part_002): the token codec —
  `signToken`, `verifyToken`, the single-use `jti` table.
* `apps/sfu/src/server.ts`, token-gated variant (src/unnamed/part_000):
  rooms, sessions, the request dispatcher, grace cleanup, the audio-level
  observer driver.  Per the specification (section 9) the token-gated
  variant is the authoritative server; the second, ungated variant
  (src/unnamed/part_001) is referenced only where a claim contrasts the two.

External library collaborators (node `crypto`, `Buffer` base64, `JSON`)
are modelled by executable stand-in codecs that keep exactly the
properties the source relies on: the payload serializer is injective with
an executable inverse, the base64url stand-in produces no `.` character
and round-trips, and HMAC is an arbitrary fixed executable digest
function (verification only ever compares a recomputed digest with a
transported one).  Everything else is translated from the source line by
line.
-/

namespace VoiceSFU

/-! ## Association-list primitives, modelling the JS `Map` (insertion order
preserved; `set` replaces in place or appends; `delete` removes the key). -/

/-- Lookup in an association list, as `Map.get`. -/
def alookup {α : Type} (k : String) : List (String × α) → Option α
  | [] => none
  | (k', v) :: t => if k' = k then some v else alookup k t

/-- Insert or replace, as `Map.set`: an existing key keeps its position. -/
def aset {α : Type} (k : String) (v : α) : List (String × α) → List (String × α)
  | [] => [(k, v)]
  | (k', v') :: t => if k' = k then (k, v) :: t else (k', v') :: aset k v t

/-- Remove a key, as `Map.delete`. -/
def aremove {α : Type} (k : String) : List (String × α) → List (String × α)
  | [] => []
  | (k', v') :: t => if k' = k then t else (k', v') :: aremove k t

/-! ## Token payload (token.ts lines 22-37) -/

/-- The token payload of `token.ts`: `{roomId, peerId, sessionId?, jti, iat, exp}`,
times in seconds since epoch. -/
structure TokenPayload where
  roomId : String
  peerId : String
  sessionId : Option String
  jti : String
  iat : Nat
  exp : Nat
deriving DecidableEq

/-! ## Codec stand-ins for the node library boundary.

The digit-string codec below stands in for the composite
`base64url ∘ Buffer` of `token.ts` lines 6-19: an executable injective
encoding of a byte list into a character list that uses no `.`, with an
executable total inverse.  Numbers are rendered with `Nat.digits` mapped
into letters and a `-` separator. -/

/-- One encoded digit: `A`..`J` for 0..9. -/
def digChar (d : Nat) : Char := Char.ofNat (65 + d)

/-- Inverse of `digChar` on 0..9. -/
def digVal (c : Char) : Nat := c.toNat - 65

/-- Stand-in for `base64urlEncode` (token.ts line 6): byte list to text,
never producing a `.` character. -/
def b64uEnc : List Nat → List Char
  | [] => []
  | n :: t => (Nat.digits 10 n).map digChar ++ '-' :: b64uEnc t

/-- Worker for the decoder: accumulates digit values until a separator. -/
def b64uDecAux : List Char → List Nat → List Nat
  | [], _ => []
  | c :: rest, acc =>
    if c = '-' then Nat.ofDigits 10 acc :: b64uDecAux rest []
    else b64uDecAux rest (acc ++ [digVal c])

/-- Stand-in for `base64urlDecodeToBuffer` (token.ts line 14): total, and a
left inverse of `b64uEnc`. -/
def b64uDec (s : List Char) : List Nat := b64uDecAux s []

/-! ## JSON stand-in: an injective serialization of the payload record with
an executable inverse, standing in for `JSON.stringify` / `JSON.parse`
(token.ts lines 71-72 and 109). -/

/-- Serialize one string: its length, then its character codes. -/
def encStr (s : String) : List Nat := s.data.length :: s.data.map Char.toNat

/-- Serialize an optional string with a presence tag. -/
def encOptStr : Option String → List Nat
  | none => [0]
  | some s => 1 :: encStr s

/-- Stand-in for `JSON.stringify` on a `TokenPayload`. -/
def jsonStringifyPayload (p : TokenPayload) : List Nat :=
  encStr p.roomId ++ encStr p.peerId ++ encOptStr p.sessionId ++
    encStr p.jti ++ [p.iat, p.exp]

/-- Read one serialized string. -/
def readStr : List Nat → Option (String × List Nat)
  | [] => none
  | n :: rest =>
    if n ≤ rest.length then
      some (String.mk ((rest.take n).map Char.ofNat), rest.drop n)
    else none

/-- Read one serialized optional string. -/
def readOptStr : List Nat → Option (Option String × List Nat)
  | [] => none
  | t :: rest =>
    if t = 0 then some (none, rest)
    else if t = 1 then (readStr rest).map (fun r => (some r.1, r.2))
    else none

/-- Stand-in for `JSON.parse` followed by the cast to `TokenPayload`. -/
def jsonParsePayload (l : List Nat) : Option TokenPayload :=
  match readStr l with
  | none => none
  | some (roomId, l1) =>
    match readStr l1 with
    | none => none
    | some (peerId, l2) =>
      match readOptStr l2 with
      | none => none
      | some (sessionId, l3) =>
        match readStr l3 with
        | none => none
        | some (jti, l4) =>
          match l4 with
          | iat :: exp :: _ => some ⟨roomId, peerId, sessionId, jti, iat, exp⟩
          | _ => none

/-- Stand-in for the `crypto.createHmac("sha256", SECRET)` digest
(token.ts lines 64 and 110): a fixed executable function of the signed
text; verification recomputes it and compares. -/
def hmacM (l : List Char) : List Nat :=
  [l.length, l.foldl (fun a c => a + c.toNat) 0]

/-! ## JS `String.split(".")` (token.ts line 58), on character lists. -/

/-- The exact splitting behaviour of JS `split(".")`: every separator
starts a new (possibly empty) segment, and the result is never empty. -/
def jsSplitDot : List Char → List (List Char)
  | [] => [[]]
  | c :: rest =>
    if c = '.' then [] :: jsSplitDot rest
    else
      match jsSplitDot rest with
      | [] => [[c]]
      | h :: t => (c :: h) :: t

/-! ## The single-use jti table and `verifyToken` / `signToken`
(token.ts lines 40-113). -/

/-- The module-global `usedJti` map: jti, eviction time (the token's exp). -/
abbrev UsedJti : Type := List (String × Nat)

/-- `cleanupUsedJti` (token.ts line 42): drop every entry whose exp has
passed. -/
def cleanupUsedJti (nowSec : Nat) (used : UsedJti) : UsedJti :=
  List.filter (fun e => decide (nowSec < e.2)) used

/-- The options record of `verifyToken`. -/
structure VerifyOpts where
  consumeJti : Bool
  expectedRoomId : Option String
  expectedPeerId : Option String
  expectedSessionId : Option String
deriving DecidableEq

/-- JS truthiness check of `opts?.expectedX && payload.x !== opts.expectedX`:
an absent or empty expectation is skipped. -/
def expectedMismatch : Option String → String → Bool
  | none, _ => false
  | some e, v => e ≠ "" && v ≠ e

/-- The `expectedSessionId` check: compares against `payload.sessionId || ""`. -/
def sessionMismatch : Option String → Option String → Bool
  | none, _ => false
  | some e, sid => e ≠ "" && sid.getD "" ≠ e

/-- The field, time, binding and single-use checks of `verifyToken`
(token.ts lines 74-103), run on the parsed payload in source order. -/
def verifyChecks (payload : TokenPayload) (opts : VerifyOpts) (now : Nat)
    (used : UsedJti) : UsedJti × Except String TokenPayload :=
  if payload.roomId = "" then (used, .error "no_roomId")
  else if payload.peerId = "" then (used, .error "no_peerId")
  else if payload.jti = "" then (used, .error "no_jti")
  else if payload.iat = 0 then (used, .error "no_iat")
  else if payload.exp = 0 then (used, .error "no_exp")
  else if payload.exp ≤ now then (used, .error "expired")
  else if payload.iat > now + 30 then (used, .error "iat_in_future")
  else if expectedMismatch opts.expectedRoomId payload.roomId then
    (used, .error "roomId_mismatch")
  else if expectedMismatch opts.expectedPeerId payload.peerId then
    (used, .error "peerId_mismatch")
  else if sessionMismatch opts.expectedSessionId payload.sessionId then
    (used, .error "sessionId_mismatch")
  else if opts.consumeJti then
    if (alookup payload.jti (cleanupUsedJti now used)).isSome then
      (cleanupUsedJti now used, .error "replayed")
    else (aset payload.jti payload.exp (cleanupUsedJti now used), .ok payload)
  else (cleanupUsedJti now used, .ok payload)

/-- `verifyToken` (token.ts lines 48-104).  The ambient clock
(`Math.floor(Date.now()/1000)` when `opts.nowSec` is absent) is the
explicit `now` argument; the module-global `usedJti` map is threaded as
state and returned alongside the result (mutations before a throw
persist, exactly as in the source: the opportunistic cleanup runs before
the replay check).  `expectedSig` is `hmacM payloadB64`, `gotSig` is
`b64uDec sigB64`, written inline. -/
def verifyToken (token : List Char) (opts : VerifyOpts) (now : Nat)
    (used : UsedJti) : UsedJti × Except String TokenPayload :=
  match jsSplitDot token with
  | [payloadB64, sigB64] =>
    if (b64uDec sigB64).length ≠ (hmacM payloadB64).length then
      (used, .error "bad_sig_len")
    else if b64uDec sigB64 ≠ hmacM payloadB64 then (used, .error "bad_sig")
    else
      match jsonParsePayload (b64uDec payloadB64) with
      | none => (used, .error "bad_json")
      | some payload => verifyChecks payload opts now used
  | _ => (used, .error "bad_format")

/-- `signToken` (token.ts lines 108-113): encode the payload, digest the
encoded text, join the two segments with a dot. -/
def signToken (p : TokenPayload) : List Char :=
  let payloadB64 := b64uEnc (jsonStringifyPayload p)
  payloadB64 ++ '.' :: b64uEnc (hmacM payloadB64)

/-- The options the connection gate uses: `{ consumeJti: true }`. -/
def consumeOpts : VerifyOpts := ⟨true, none, none, none⟩

/-! ## Server data model (server.ts, token-gated variant, lines 9-49).

Media-engine objects (transports, producers, consumers) are referenced by
the ids the engine mints; the state additionally records which transports
are open (`liveTransports`), which producer/consumer was created on which
transport for which session (`prodMeta`/`consMeta`, driving the
`transportclose` cascades), and per room the set of producers attached to
the audio-level observer (`attached`, the observer reports volumes only
for producers added to it). -/

/-- Media kind of a producer. -/
inductive MKind where
  | audio
  | video
deriving DecidableEq

/-- Render a kind the way the wire protocol does. -/
def kindStr : MKind → String
  | .audio => "audio"
  | .video => "video"

/-- The `Client` record (server.ts lines 9-24).  `wsId` is the connection
handle; `send`/`recv` hold transport ids; `producers` maps producer id to
its kind (the handle), `consumers` lists consumer ids; `cleanupTimer`
models the armed grace timer. -/
structure Client where
  sessionId : String
  peerId : String
  wsId : Nat
  roomId : Option String
  send : Option String
  recv : Option String
  producers : List (String × MKind)
  consumers : List String
  cleanupTimer : Bool
deriving DecidableEq

/-- The `Room` record (server.ts lines 26-38).  `peers` maps `peerId` to
the `sessionId` of the referenced `Client`          (the JS map holds the object;
clients live in the session registry).  `producers` maps producer id to
`{peerId, kind}`.  `attached` is the level observer's producer set. -/
structure RoomRec where
  id : String
  routerId : String
  peers : List (String × String)
  producers : List (String × String × MKind)
  attached : List String
  speaking : List String
deriving DecidableEq

/-- The whole process state: the `sessions` and `rooms` globals plus the
engine-side bookkeeping and the fresh-id counter standing in for the
engine's id minting and `rid()`. -/
structure ServerState where
  sessions : List (String × Client)
  rooms : List (String × RoomRec)
  liveTransports : List String
  prodMeta : List (String × String × String)
  consMeta : List (String × String × String)
  nextId : Nat
deriving DecidableEq

/-- The empty boot state. -/
def initState : ServerState := ⟨[], [], [], [], [], 0⟩

/-- Response payloads, shaped as the source builds them. -/
inductive RData where
  | obj : List (String × String) → RData
  | joinData : String → String → String → Option String → List String →
      List (String × String × MKind) → RData
  | listData : List (String × String × MKind) → RData
deriving DecidableEq

/-- Server-to-client messages. -/
inductive OutMsg where
  | welcome : String → Option String → OutMsg
  | welcomeFull : String → String → List String → List (String × String × MKind) → OutMsg
  | response : Nat → Bool → RData → OutMsg
  | peerJoined : String → OutMsg
  | peerLeft : String → OutMsg
  | newProducer : String → String → MKind → OutMsg
  | producerClosed : String → String → MKind → String → OutMsg
  | producerSpeaking : String → Option String → Bool → Option Int → OutMsg
deriving DecidableEq

/-- An observable output: a send on a connection, or a close of one. -/
inductive Out where
  | sendTo : Nat → OutMsg → Out
  | closeWs : Nat → Option Nat → String → Out
deriving DecidableEq

/-- The token-derived annotations `_tokenRoomId` / `_tokenPeerId` /
`_tokenSessionId` the gate hangs on an accepted connection, plus the
connection handle. -/
structure ConnInfo where
  wsId : Nat
  tokenRoomId : String
  tokenPeerId : String
  tokenSessionId : String
deriving DecidableEq

/-- A request payload.  String fields use `""` for an absent field, as the
source normalizes with `String(x || "").trim()`; engine parameter blobs
are tracked by presence only. -/
structure Payload where
  roomId : String
  sessionId : String
  direction : String
  kind : String
  producerId : String
  consumerId : String
  hasRtpParameters : Bool
  hasDtlsParameters : Bool
  hasRtpCapabilities : Bool
deriving DecidableEq

/-- A parsed client request envelope `{type, requestId, payload}`. -/
structure ClientMsg where
  type : String
  requestId : Nat
  payload : Payload
deriving DecidableEq

/-- Concatenation of per-element output lists, in order. -/
def concatMap {α β : Type} (f : α → List β) (l : List α) : List β :=
  (l.map f).flatten

/-- Engine id minting / `rid()`: a fresh tagged id from the counter. -/
def freshId (st : ServerState) (tag : String) : String × ServerState :=
  (tag ++ toString st.nextId, { st with nextId := st.nextId + 1 })

/-- `roomProducerList` (server.ts lines 56-62). -/
def roomProducerList (room : RoomRec) : List (String × String × MKind) :=
  room.producers.map (fun e => (e.1, e.2.1, e.2.2))

/-- `roomPeerList` (server.ts lines 64-66), reduced to the `peerId` field. -/
def roomPeerList (room : RoomRec) : List String :=
  room.peers.map (fun e => e.1)

/-- `broadcastRoom` (server.ts lines 68-75): send to every member except
the excluded peer; a member whose client cannot be resolved is skipped
(the JS try/catch swallows the send failure). -/
def broadcastRoom (st : ServerState) (room : RoomRec) (m : OutMsg)
    (excludePeerId : Option String) : List Out :=
  concatMap (fun e =>
    if excludePeerId = some e.1 then []
    else
      match alookup e.2 st.sessions with
      | some cl => [Out.sendTo cl.wsId m]
      | none => []) room.peers

/-- Closing a producer detaches it from every room's level observer (the
engine drops closed producers from the observer). -/
def detachEverywhere (pids : List String) (st : ServerState) : ServerState :=
  { st with rooms := st.rooms.map (fun e =>
      (e.1, { e.2 with attached := e.2.attached.filter (fun a => !decide (a ∈ pids)) })) }

/-- `getRoom` (server.ts lines 98-171): idempotent by id; on first use a
fresh router and level observer are created and the room is published
with empty indexes. -/
def getRoom (st : ServerState) (rid : String) : RoomRec × ServerState :=
  match alookup rid st.rooms with
  | some r => (r, st)
  | none =>
    let (routerId, st1) := freshId st "router"
    let room : RoomRec := ⟨rid, routerId, [], [], [], []⟩
    (room, { st1 with rooms := aset rid room st1.rooms })

/-- `resetPeerMedia` (server.ts lines 260-307): silently delete the peer's
producers from the room index and speaking set (broadcasting only
`producerSpeaking false`, never `producerClosed`), close them, then close
and forget the peer's own media objects.  Returns the new state, the
outputs, and the cleared client record (the caller re-registers it). -/
def resetPeerMedia (st : ServerState) (c : Client) : ServerState × List Out × Client :=
  let step1 : ServerState × List Out :=
    match c.roomId with
    | none => (st, [])
    | some rid =>
      match alookup rid st.rooms with
      | none => (st, [])
      | some room =>
        let removed := (room.producers.filter (fun e => decide (e.2.1 = c.peerId))).map
          (fun e => e.1)
        let outs := concatMap (fun pid =>
          if pid ∈ room.speaking then
            broadcastRoom st room (.producerSpeaking pid (some c.peerId) false none) none
          else []) removed
        let room' := { room with
          producers := room.producers.filter (fun e => !decide (e.2.1 = c.peerId)),
          speaking := room.speaking.filter (fun pid => !decide (pid ∈ removed)) }
        (detachEverywhere removed { st with rooms := aset rid room' st.rooms }, outs)
  let st1 := step1.1
  let pids := c.producers.map (fun e => e.1)
  let st2 := detachEverywhere pids st1
  let st3 := { st2 with liveTransports := st2.liveTransports.filter (fun t =>
    !decide (some t = c.send) && !decide (some t = c.recv)) }
  (st3, step1.2, { c with producers := [], consumers := [], send := none, recv := none })

/-- `destroyPeer` (server.ts lines 174-247): final cleanup at grace expiry.
Broadcasts `producerSpeaking false` and `producerClosed` per owned index
entry, removes the peer from the room, broadcasts `peerLeft`, closes all
media, deletes the session, and tears the room down when it empties. -/
def destroyPeer (st : ServerState) (c : Client) : ServerState × List Out :=
  match c.roomId with
  | none => ({ st with sessions := aremove c.sessionId st.sessions }, [])
  | some rid =>
    match alookup rid st.rooms with
    | none => ({ st with sessions := aremove c.sessionId st.sessions }, [])
    | some room =>
      let removedEntries := room.producers.filter (fun e => decide (e.2.1 = c.peerId))
      let outs1 := concatMap (fun e =>
        (if e.1 ∈ room.speaking then
          broadcastRoom st room (.producerSpeaking e.1 (some c.peerId) false none) none
        else []) ++
        broadcastRoom st room (.producerClosed e.1 c.peerId e.2.2 "left") none)
        removedEntries
      let removed := removedEntries.map (fun e => e.1)
      let room' := { room with
        producers := room.producers.filter (fun e => !decide (e.2.1 = c.peerId)),
        speaking := room.speaking.filter (fun pid => !decide (pid ∈ removed)),
        peers := aremove c.peerId room.peers }
      let stMid := { st with rooms := aset rid room' st.rooms }
      let outs2 := broadcastRoom stMid room' (.peerLeft c.peerId) (some c.peerId)
      let pids := c.producers.map (fun e => e.1)
      let st2 := detachEverywhere (removed ++ pids) stMid
      let st3 := { st2 with
        liveTransports := st2.liveTransports.filter (fun t =>
          !decide (some t = c.send) && !decide (some t = c.recv)),
        sessions := aremove c.sessionId st2.sessions }
      let st4 := if room'.peers = [] then { st3 with rooms := aremove rid st3.rooms } else st3
      (st4, outs1 ++ outs2)

/-! ## The request dispatcher (server.ts lines 374-804). -/

/-- `requireRoomIdMatch` (server.ts lines 383-391): the payload room must
be nonempty and equal the token-bound room. -/
def requireRoomIdMatch (authedRoomId r : String) : Except String String :=
  if authedRoomId = "" then .error "not_authed"
  else if r = "" then .error "roomId required"
  else if r ≠ authedRoomId then .error "roomId mismatch"
  else .ok r

/-- `requireBoundIdentity` (server.ts lines 394-411): the token's peer id
is authoritative; a token-bound session id must match the payload's; with
no token session id the payload's is used or a fresh one is minted. -/
def requireBoundIdentity (tokenPeerId tokenSessionId msgSessionId : String)
    (st : ServerState) : Except String (String × String × ServerState) :=
  if tokenPeerId = "" then .error "not_authed"
  else if tokenSessionId ≠ "" then
    if msgSessionId = "" then .error "sessionId required (token-bound)"
    else if msgSessionId ≠ tokenSessionId then .error "sessionId mismatch (token-bound)"
    else .ok (tokenPeerId, tokenSessionId, st)
  else if msgSessionId ≠ "" then .ok (tokenPeerId, msgSessionId, st)
  else .ok (tokenPeerId, (freshId st "s_").1, (freshId st "s_").2)

/-- One `ok:false` response envelope carrying an error string. -/
def failResponse (wsId requestId : Nat) (e : String) : Out :=
  .sendTo wsId (.response requestId false (.obj [("error", e)]))

/-- The adopt path shared textually by `resumeSession` and `join`
(server.ts lines 434-449 and 501-516): check the bound peer id, disarm
grace, reset media, close a differing old connection, take over the
handle.  Fails with the state unchanged; on success the updated client is
already re-registered in `sessions`. -/
def adoptPeer (st : ServerState) (conn : ConnInfo) (peer : Client) (peerId : String) :
    Except String (ServerState × List Out × Client) :=
  if peer.peerId ≠ peerId then .error "peerId mismatch (session bound)"
  else
    let peer1 := { peer with cleanupTimer := false }
    let r := resetPeerMedia st peer1
    let closeOuts := if peer1.wsId ≠ conn.wsId then [Out.closeWs peer1.wsId none ""] else []
    let peer2 := { r.2.2 with wsId := conn.wsId }
    .ok ({ r.1 with sessions := aset peer2.sessionId peer2 r.1.sessions },
      r.2.1 ++ closeOuts, peer2)

/-- The `resumeSession` handler (server.ts lines 417-479). -/
def handleResume (st : ServerState) (conn : ConnInfo) (msg : ClientMsg) :
    ServerState × List Out :=
  let pl := msg.payload
  match requireRoomIdMatch conn.tokenRoomId pl.roomId with
  | .error e => (st, [failResponse conn.wsId msg.requestId e])
  | .ok roomId =>
    match requireBoundIdentity conn.tokenPeerId conn.tokenSessionId pl.sessionId st with
    | .error e => (st, [failResponse conn.wsId msg.requestId e])
    | .ok (peerId, sessionId, st0) =>
      let adopted : Except String (ServerState × List Out × Client) :=
        match alookup sessionId st0.sessions with
        | none =>
          let fresh : Client := ⟨sessionId, peerId, conn.wsId, none, none, none, [], [], false⟩
          .ok ({ st0 with sessions := aset sessionId fresh st0.sessions }, [], fresh)
        | some peer => adoptPeer st0 conn peer peerId
      match adopted with
      | .error e => (st0, [failResponse conn.wsId msg.requestId e])
      | .ok (st1, outs1, peer) =>
        if peer.roomId.isSome ∧ peer.roomId ≠ some roomId then
          (st1, outs1 ++ [failResponse conn.wsId msg.requestId "roomId mismatch"])
        else
          let entered : ServerState × List Out × Client :=
            match peer.roomId with
            | some _ => (st1, [], peer)
            | none =>
              let peer' := { peer with roomId := some roomId }
              let st2 := { st1 with sessions := aset sessionId peer' st1.sessions }
              let (room, st3) := getRoom st2 roomId
              let room' := { room with peers := aset peer'.peerId sessionId room.peers }
              let st4 := { st3 with rooms := aset roomId room' st3.rooms }
              (st4, broadcastRoom st4 room' (.peerJoined peer'.peerId) (some peer'.peerId),
                peer')
          let st5 := entered.1
          let curRoomId := (entered.2.2.roomId).getD roomId
          let roomNow := alookup curRoomId st5.rooms
          let caps := roomNow.map (fun r => "rtpCaps:" ++ r.routerId)
          let peersList := (roomNow.map roomPeerList).getD []
          let prodsList := (roomNow.map roomProducerList).getD []
          (st5, outs1 ++ entered.2.1 ++
            [Out.sendTo conn.wsId (.response msg.requestId true
              (.joinData curRoomId sessionId peerId caps peersList prodsList)),
             Out.sendTo conn.wsId (.welcomeFull sessionId peerId peersList prodsList)])

/-- The `join` handler (server.ts lines 484-543). -/
def handleJoin (st : ServerState) (conn : ConnInfo) (msg : ClientMsg) :
    ServerState × List Out :=
  let pl := msg.payload
  match requireRoomIdMatch conn.tokenRoomId pl.roomId with
  | .error e => (st, [failResponse conn.wsId msg.requestId e])
  | .ok roomId =>
    match requireBoundIdentity conn.tokenPeerId conn.tokenSessionId pl.sessionId st with
    | .error e => (st, [failResponse conn.wsId msg.requestId e])
    | .ok (peerId, sessionId, st0) =>
      let adopted : Except String (ServerState × List Out × Client) :=
        match alookup sessionId st0.sessions with
        | none =>
          let fresh : Client := ⟨sessionId, peerId, conn.wsId, none, none, none, [], [], false⟩
          .ok ({ st0 with sessions := aset sessionId fresh st0.sessions }, [], fresh)
        | some peer => adoptPeer st0 conn peer peerId
      match adopted with
      | .error e => (st0, [failResponse conn.wsId msg.requestId e])
      | .ok (st1, outs1, peer) =>
        if peer.roomId.isSome ∧ peer.roomId ≠ some roomId then
          (st1, outs1 ++ [failResponse conn.wsId msg.requestId "roomId mismatch"])
        else
          let peer' := { peer with roomId := some roomId }
          let st2 := { st1 with sessions := aset sessionId peer' st1.sessions }
          let (room, st3) := getRoom st2 roomId
          let room' := { room with peers := aset peer'.peerId sessionId room.peers }
          let st4 := { st3 with rooms := aset roomId room' st3.rooms }
          (st4, outs1 ++
            [Out.sendTo conn.wsId (.response msg.requestId true
              (.joinData room'.id sessionId peerId (some ("rtpCaps:" ++ room'.routerId))
                (roomPeerList room') (roomProducerList room'))),
             Out.sendTo conn.wsId (.welcomeFull sessionId peerId
                (roomPeerList room') (roomProducerList room'))] ++
            broadcastRoom st4 room' (.peerJoined peer'.peerId) (some peer'.peerId))

/-- The `listProducers` / `getRoomProducers` handler (server.ts
lines 548-565). -/
def handleList (st : ServerState) (conn : ConnInfo) (msg : ClientMsg) :
    ServerState × List Out :=
  match (if msg.payload.roomId ≠ "" then
           requireRoomIdMatch conn.tokenRoomId msg.payload.roomId
         else
           match (if msg.payload.sessionId = "" then none
                  else alookup msg.payload.sessionId st.sessions) with
           | some p =>
             match p.roomId with
             | some r => requireRoomIdMatch conn.tokenRoomId r
             | none => .ok ""
           | none => .ok "") with
  | .error e => (st, [failResponse conn.wsId msg.requestId e])
  | .ok roomId =>
    if roomId = "" then (st, [failResponse conn.wsId msg.requestId "room not found"])
    else
      match alookup roomId st.rooms with
      | none => (st, [failResponse conn.wsId msg.requestId "room not found"])
      | some room =>
        (st, [Out.sendTo conn.wsId (.response msg.requestId true
          (.listData (roomProducerList room)))])

/-- The `createTransport` handler body (server.ts lines 581-616).  Note:
an already-held transport of the requested direction is simply
overwritten, never closed. -/
def hCreateTransport (st : ServerState) (peer : Client) (pl : Payload) :
    Except String (ServerState × RData) :=
  if pl.direction ≠ "send" ∧ pl.direction ≠ "recv" then .error "invalid direction"
  else
    match peer.roomId with
    | none => .error "room not joined"
    | some rid =>
      match alookup rid st.rooms with
      | none => .error "room not found"
      | some _room =>
        let (tid, st1) := freshId st "t"
        let st2 := { st1 with liveTransports := st1.liveTransports ++ [tid] }
        let peer' := if pl.direction = "send" then { peer with send := some tid }
          else { peer with recv := some tid }
        let st3 := { st2 with sessions := aset peer.sessionId peer' st2.sessions }
        .ok (st3, .obj [("id", tid), ("iceParameters", "ice:" ++ tid),
          ("iceCandidates", "candidates:" ++ tid), ("dtlsParameters", "dtls:" ++ tid)])

/-- The `connectTransport` handler body (server.ts lines 622-639). -/
def hConnectTransport (st : ServerState) (peer : Client) (pl : Payload) :
    Except String (ServerState × RData) :=
  if ¬ pl.hasDtlsParameters then .error "missing dtlsParameters"
  else
    match (if pl.direction = "send" then peer.send
           else if pl.direction = "recv" then peer.recv else none) with
    | none => .error (pl.direction ++ " transport not created")
    | some _tid => .ok (st, .obj [("connected", "true")])

/-- The `produce` handler body (server.ts lines 644-684): register in the
peer's map and (when the room resolves) in the room index; no level
observer attach, no broadcast, and the response key is `id`. -/
def hProduce (st : ServerState) (peer : Client) (pl : Payload) :
    Except String (ServerState × RData) :=
  if pl.kind ≠ "audio" ∧ pl.kind ≠ "video" then .error "invalid kind"
  else
    match peer.send with
    | none => .error "send transport not ready"
    | some sendTid =>
      if ¬ pl.hasRtpParameters then .error "missing rtpParameters"
      else
        let kind := if pl.kind = "audio" then MKind.audio else MKind.video
        let (pid, st1) := freshId st "prod"
        let peer' := { peer with producers := aset pid kind peer.producers }
        let st2 := { st1 with
          sessions := aset peer.sessionId peer' st1.sessions,
          prodMeta := st1.prodMeta ++ [(pid, peer.sessionId, sendTid)] }
        let st3 := match peer.roomId with
          | some rid =>
            match alookup rid st2.rooms with
            | some room =>
              let room2 :=
                { room with producers := aset pid (peer.peerId, kind) room.producers }
              { st2 with rooms := aset rid room2 st2.rooms }
            | none => st2
          | none => st2
        .ok (st3, .obj [("id", pid)])

/-- The `pauseProducer` handler body (server.ts lines 690-700). -/
def hPauseProducer (st : ServerState) (peer : Client) (pl : Payload) :
    Except String (ServerState × RData) :=
  if pl.producerId = "" then .error "missing producerId"
  else
    match alookup pl.producerId peer.producers with
    | none => .error "producer not found"
    | some _ => .ok (st, .obj [("paused", "true")])

/-- The `resumeProducer` handler body (server.ts lines 706-716). -/
def hResumeProducer (st : ServerState) (peer : Client) (pl : Payload) :
    Except String (ServerState × RData) :=
  if pl.producerId = "" then .error "missing producerId"
  else
    match alookup pl.producerId peer.producers with
    | none => .error "producer not found"
    | some _ => .ok (st, .obj [("paused", "false")])

/-- The `consume` handler body (server.ts lines 723-772): the self-consume
rejection precedes the `canConsume` check. -/
def hConsume (canConsume : String → Bool) (st : ServerState) (peer : Client)
    (pl : Payload) : Except String (ServerState × RData) :=
  if pl.producerId = "" then .error "missing producerId"
  else
    match peer.recv with
    | none => .error "recv transport not ready"
    | some recvTid =>
      match peer.roomId with
      | none => .error "room not joined"
      | some rid =>
        match alookup rid st.rooms with
        | none => .error "room not found"
        | some room =>
          if ¬ pl.hasRtpCapabilities then .error "missing rtpCapabilities"
          else
            match alookup pl.producerId room.producers with
            | none => .error "producer not found"
            | some entry =>
              if entry.1 = peer.peerId then .error "cannot consume self"
              else if ¬ canConsume pl.producerId then
                .error "cannot consume (rtpCapabilities)"
              else
                let (cid, st1) := freshId st "cons"
                let peer' := { peer with consumers := peer.consumers ++ [cid] }
                let st2 := { st1 with
                  sessions := aset peer.sessionId peer' st1.sessions,
                  consMeta := st1.consMeta ++ [(cid, peer.sessionId, recvTid)] }
                .ok (st2, .obj [("id", cid), ("producerId", pl.producerId),
                  ("kind", kindStr entry.2), ("rtpParameters", "rtp:" ++ cid)])

/-- The `pauseConsumer` handler body (server.ts lines 778-786). -/
def hPauseConsumer (st : ServerState) (peer : Client) (pl : Payload) :
    Except String (ServerState × RData) :=
  if pl.consumerId = "" then .error "missing consumerId"
  else if pl.consumerId ∈ peer.consumers then .ok (st, .obj [])
  else .error "consumer not found"

/-- The `resumeConsumer` handler body (server.ts lines 788-796). -/
def hResumeConsumer (st : ServerState) (peer : Client) (pl : Payload) :
    Except String (ServerState × RData) :=
  if pl.consumerId = "" then .error "missing consumerId"
  else if pl.consumerId ∈ peer.consumers then .ok (st, .obj [])
  else .error "consumer not found"

/-- Every post-handshake handler (server.ts lines 567-800): locate the
peer by `payload.sessionId` alone, check the peer's room against the
token-bound room, then dispatch.  These handlers read nothing else from
the connection; they return the new state and the single response datum
(each source handler ends with exactly one `ok(...)`).  All throws happen
before any state mutation, so an error leaves the state unchanged. -/
def dispatch (canConsume : String → Bool) (st : ServerState) (peer : Client)
    (msg : ClientMsg) : Except String (ServerState × RData) :=
  if msg.type = "createTransport" then hCreateTransport st peer msg.payload
  else if msg.type = "connectTransport" then hConnectTransport st peer msg.payload
  else if msg.type = "produce" then hProduce st peer msg.payload
  else if msg.type = "pauseProducer" then hPauseProducer st peer msg.payload
  else if msg.type = "resumeProducer" then hResumeProducer st peer msg.payload
  else if msg.type = "consume" then hConsume canConsume st peer msg.payload
  else if msg.type = "pauseConsumer" then hPauseConsumer st peer msg.payload
  else if msg.type = "resumeConsumer" then hResumeConsumer st peer msg.payload
  else .error "unknown type"

/-- The common prefix of the post-handshake handlers: resolve the peer and
check its room, then dispatch. -/
def handleRest (canConsume : String → Bool) (st : ServerState) (authedRoomId : String)
    (msg : ClientMsg) : Except String (ServerState × RData) :=
  match (if msg.payload.sessionId = "" then none
         else alookup msg.payload.sessionId st.sessions) with
  | none => .error "invalid sessionId (peer not found)"
  | some peer =>
    match (match peer.roomId with
           | some r => requireRoomIdMatch authedRoomId r
           | none => .ok "") with
    | .error e => .error e
    | .ok _ => dispatch canConsume st peer msg

/-- The message pump body (server.ts lines 374-804): route the parsed
envelope, convert every handler error into a single `ok:false` response
on the same connection. -/
def handleMessage (canConsume : String → Bool) (st : ServerState) (conn : ConnInfo)
    (msg : ClientMsg) : ServerState × List Out :=
  if msg.type = "resumeSession" then handleResume st conn msg
  else if msg.type = "join" then handleJoin st conn msg
  else if msg.type = "listProducers" ∨ msg.type = "getRoomProducers" then
    handleList st conn msg
  else
    match handleRest canConsume st conn.tokenRoomId msg with
    | .ok r => (r.1, [Out.sendTo conn.wsId (.response msg.requestId true r.2)])
    | .error e => (st, [failResponse conn.wsId msg.requestId e])

/-! ## Connection-level and engine-level events. -/

/-- `ws.on("close")` (server.ts lines 806-818): find the owning peer by a
linear scan over the session registry and arm the 25-second grace timer
(`scheduleGraceCleanup`, lines 250-258; re-arming cancels the prior
timer). -/
def findByWs (wsId : Nat) : List (String × Client) → Option Client
  | [] => none
  | (_, c) :: t => if c.wsId = wsId then some c else findByWs wsId t

/-- The connection-close event. -/
def wsCloseStep (st : ServerState) (wsId : Nat) : ServerState :=
  match findByWs wsId st.sessions with
  | none => st
  | some c =>
    { st with sessions := aset c.sessionId { c with cleanupTimer := true } st.sessions }

/-- Grace-timer expiry for a session: fires only when armed and runs
`destroyPeer`. -/
def graceStep (st : ServerState) (sid : String) : ServerState × List Out :=
  match alookup sid st.sessions with
  | some c => if c.cleanupTimer then destroyPeer st c else (st, [])
  | none => (st, [])

/-- DTLS close of an open transport: the registered `dtlsstatechange`
handler closes the transport (server.ts lines 601-607), the engine closes
the objects created on it, and the registered `transportclose` handlers
run — a producer is deleted from the owning peer's map and closed
(lines 672-679, note the room index is not touched), a consumer is
deleted from the owning peer's map (lines 757-759). -/
def dtlsCloseStep (st : ServerState) (tid : String) : ServerState :=
  if tid ∈ st.liveTransports then
    let st1 := { st with liveTransports := st.liveTransports.filter (fun t => !decide (t = tid)) }
    let prods := st1.prodMeta.filter (fun m => decide (m.2.2 = tid))
    let st2 := prods.foldl (fun acc m =>
      let acc' :=
        match alookup m.2.1 acc.sessions with
        | some c =>
          let c' := { c with producers := aremove m.1 c.producers }
          { acc with sessions := aset m.2.1 c' acc.sessions }
        | none => acc
      detachEverywhere [m.1] acc') st1
    let cons := st2.consMeta.filter (fun m => decide (m.2.2 = tid))
    cons.foldl (fun acc m =>
      match alookup m.2.1 acc.sessions with
      | some c =>
        let c' := { c with consumers := c.consumers.filter (fun x => !decide (x = m.1)) }
        { acc with sessions := aset m.2.1 c' acc.sessions }
      | none => acc) st2
  else st

/-- One `volumes` tick of a room's audio-level observer (server.ts
lines 122-153).  The engine reports volumes only for producers that were
added to the observer, so the tick is guarded by membership in the
room's attached set. -/
def volumesStep (st : ServerState) (rk : String) (vols : List (String × Int)) :
    ServerState × List Out :=
  match alookup rk st.rooms with
  | none => (st, [])
  | some room =>
    if vols.all (fun v => decide (v.1 ∈ room.attached)) then
      let active := vols.map (fun v => v.1)
      let outs1 := concatMap (fun v =>
        broadcastRoom st room
          (.producerSpeaking v.1 ((alookup v.1 room.producers).map (fun e => e.1)) true
            (some v.2)) none) vols
      let dropped := room.speaking.filter (fun pid => !decide (pid ∈ active))
      let outs2 := concatMap (fun pid =>
        broadcastRoom st room
          (.producerSpeaking pid ((alookup pid room.producers).map (fun e => e.1)) false none)
          none) dropped
      let speaking1 := room.speaking.filter (fun pid => decide (pid ∈ active))
      let speaking2 := active.foldl (fun s pid => if pid ∈ s then s else s ++ [pid]) speaking1
      ({ st with rooms := aset rk { room with speaking := speaking2 } st.rooms },
        outs1 ++ outs2)
    else (st, [])

/-- One `silence` tick (server.ts lines 155-166): every speaking producer
emits `producerSpeaking false` and the set empties. -/
def silenceStep (st : ServerState) (rk : String) : ServerState × List Out :=
  match alookup rk st.rooms with
  | none => (st, [])
  | some room =>
    let outs := concatMap (fun pid =>
      broadcastRoom st room
        (.producerSpeaking pid ((alookup pid room.producers).map (fun e => e.1)) false none)
        none) room.speaking
    ({ st with rooms := aset rk { room with speaking := [] } st.rooms }, outs)

/-- The step relation of the server: a handled request on some
authenticated connection (with an arbitrary engine consumability oracle),
a connection close, a grace expiry, a transport DTLS close, or a level
observer tick. -/
inductive Step : ServerState → ServerState → Prop where
  | message (canConsume : String → Bool) (conn : ConnInfo) (msg : ClientMsg)
      (st : ServerState) : Step st (handleMessage canConsume st conn msg).1
  | wsClose (wsId : Nat) (st : ServerState) : Step st (wsCloseStep st wsId)
  | grace (sid : String) (st : ServerState) : Step st (graceStep st sid).1
  | dtls (tid : String) (st : ServerState) : Step st (dtlsCloseStep st tid)
  | volumes (rk : String) (vols : List (String × Int)) (st : ServerState) :
      Step st (volumesStep st rk vols).1
  | silence (rk : String) (st : ServerState) : Step st (silenceStep st rk).1

/-- Reachability from the boot state. -/
def Reachable (st : ServerState) : Prop :=
  Relation.ReflTransGen Step initState st

/-! ## The connection gate (server.ts lines 313-372). -/

/-- The token gate run on a new connection: an absent token or a failed
verification closes the connection with code 1008 and a reason carrying
the failure kind; on success the connection is annotated with the
token-bound identity and greeted.  The single-use jti table is threaded
and returned (a failed verification keeps its cleanup). -/
def connectionGate (tok : List Char) (now : Nat) (used : UsedJti) (wsId : Nat) :
    UsedJti × List Out × Option ConnInfo :=
  if tok = [] then (used, [Out.closeWs wsId (some 1008) "missing token"], none)
  else
    match verifyToken tok consumeOpts now used with
    | (used', .error e) =>
      (used', [Out.closeWs wsId (some 1008) ("invalid token: " ++ e)], none)
    | (used', .ok p) =>
      if p.roomId = "" then
        (used', [Out.closeWs wsId (some 1008) "invalid token: no_roomId"], none)
      else if p.peerId = "" then
        (used', [Out.closeWs wsId (some 1008) "invalid token: no_peerId"], none)
      else
        let tokenRoomId := p.roomId.trim
        let tokenPeerId := p.peerId.trim
        let tokenSessionId := if (p.sessionId.getD "") = "" then ""
          else (p.sessionId.getD "").trim
        if tokenRoomId = "" then
          (used', [Out.closeWs wsId (some 1008) "invalid token: no_roomId"], none)
        else if tokenPeerId = "" then
          (used', [Out.closeWs wsId (some 1008) "invalid token: no_peerId"], none)
        else
          (used',
            [Out.sendTo wsId (.welcome tokenPeerId
              (if tokenSessionId = "" then none else some tokenSessionId))],
            some ⟨wsId, tokenRoomId, tokenPeerId, tokenSessionId⟩)

/-! ## Output classifiers and the claim predicates. -/

/-- Is this output a response envelope. -/
def isRespOut : Out → Bool
  | .sendTo _ (.response _ _ _) => true
  | _ => false

/-- Is this output a `newProducer` event. -/
def isNewProducerOut : Out → Bool
  | .sendTo _ (.newProducer _ _ _) => true
  | _ => false

/-- Is this output a close with code 1008. -/
def isClose1008 : Out → Bool
  | .closeWs _ code _ => code = some 1008
  | _ => false

/-- Does this output close the given connection. -/
def closesWs (w : Nat) : Out → Bool
  | .closeWs w' _ _ => w' = w
  | _ => false

/-- Is this message a response envelope. -/
def isRespMsg : OutMsg → Bool
  | .response _ _ _ => true
  | _ => false

/-- The producer-ownership claim as stated: every producer-index entry's
`peerId` resolves through the room's peer map to a member that holds the
producer id in its own producer map. -/
def claimC3check (st : ServerState) : Bool :=
  st.rooms.all fun rm =>
    rm.2.producers.all fun e =>
      match alookup e.2.1 rm.2.peers with
      | none => false
      | some sid =>
        match alookup sid st.sessions with
        | none => false
        | some c => (alookup e.1 c.producers).isSome

/-! ## Concrete connections, requests and traces used by the evaluation
theorems. -/

/-- A connection of peer `p`, session `s1`, room `r`. -/
def connA : ConnInfo := ⟨1, "r", "p", "s1"⟩

/-- A second connection bound to the same peer id `p` with session `s2`. -/
def connB : ConnInfo := ⟨2, "r", "p", "s2"⟩

/-- A connection of peer `q`, session `s3`, room `r`. -/
def connC : ConnInfo := ⟨3, "r", "q", "s3"⟩

/-- The all-absent payload. -/
def emptyPayload : Payload := ⟨"", "", "", "", "", "", false, false, false⟩

/-- A `join` request for room `r`. -/
def joinMsg (sid : String) : ClientMsg :=
  ⟨"join", 1, { emptyPayload with roomId := "r", sessionId := sid }⟩

/-- A `createTransport send` request from session `s1`. -/
def createSendMsg : ClientMsg :=
  ⟨"createTransport", 2, { emptyPayload with sessionId := "s1", direction := "send" }⟩

/-- The payload of an audio `produce` request from session `s1`. -/
def producePayload : Payload :=
  { emptyPayload with sessionId := "s1", kind := "audio", hasRtpParameters := true }

/-- An audio `produce` request from session `s1`. -/
def produceMsg : ClientMsg := ⟨"produce", 3, producePayload⟩

/-- A consumability oracle that always accepts. -/
def anyConsume : String → Bool := fun _ => true

/-- Trace: A joins `r`. -/
def trState1 : ServerState := (handleMessage anyConsume initState connA (joinMsg "s1")).1

/-- Trace: A creates its send transport (`t1`). -/
def trState2 : ServerState := (handleMessage anyConsume trState1 connA createSendMsg).1

/-- Trace: A produces (`prod2`). -/
def trState3 : ServerState := (handleMessage anyConsume trState2 connA produceMsg).1

/-- Trace: a second session `s2` with the same token peer id `p` joins,
displacing A from the room's peer map. -/
def trState4 : ServerState := (handleMessage anyConsume trState3 connB (joinMsg "s2")).1

/-- Trace: peer `q` joins (keeps the room alive later). -/
def trState5 : ServerState := (handleMessage anyConsume trState4 connC (joinMsg "s3")).1

/-- Trace: connection 2 drops; grace is armed on `s2`. -/
def trState6 : ServerState := wsCloseStep trState5 2

/-- Trace: grace expires for `s2`; `destroyPeer` removes peer id `p` from
the room and deletes every index entry owned by `p`. -/
def trState7 : ServerState := (graceStep trState6 "s2").1

/-- Trace: A (still live in `sessions`, holding its open send transport)
produces again; the index gains `prod3` owned by `p`, but `p` is no
longer in the room's peer map. -/
def trState8 : ServerState := (handleMessage anyConsume trState7 connA produceMsg).1

/-- A clean two-member state for the produce evaluation: A joined with a
send transport, C joined. -/
def c1State : ServerState := (handleMessage anyConsume trState2 connC (joinMsg "s3")).1

/-- The produce request evaluated on the token-gated server at `c1State`. -/
def c1Result : ServerState × List Out := handleMessage anyConsume c1State connA produceMsg

/-- A second `createTransport send` on a peer that already holds `t1`. -/
def c7Result : ServerState × List Out := handleMessage anyConsume trState2 connA createSendMsg

/-- An index-entry witness: some live session record carries the entry's
peer id and has the entry's room as its current room. -/
def invWitness (sessions : List (String × Client)) (rk : String)
    (pe : String × String × MKind) : Prop :=
  ∃ sid c, alookup sid sessions = some c ∧ c.peerId = pe.2.1 ∧ c.roomId = some rk

/-- Sessions half of the invariant: every entry's record carries its key,
and the keys are distinct. -/
def InvS (sessions : List (String × Client)) : Prop :=
  (∀ e ∈ sessions, (e : String × Client).2.sessionId = e.1)
  ∧ (sessions.map Prod.fst).Nodup

/-- Rooms half: no room ever has an attached or speaking producer (the
token-gated server never calls `addProducer`, so level-observer ticks
are vacuous). -/
def InvRooms (rooms : List (String × RoomRec)) : Prop :=
  ∀ e ∈ rooms, (e : String × RoomRec).2.attached = [] ∧ e.2.speaking = []

/-- Ownership half: every producer-index entry is witnessed in the
session registry. -/
def Inv3 (sessions : List (String × Client)) (rooms : List (String × RoomRec)) : Prop :=
  ∀ e ∈ rooms, ∀ pe ∈ (e : String × RoomRec).2.producers, invWitness sessions e.1 pe

/-- The inductive invariant of the server state (the room keys are also
distinct: rooms are only ever published through `getRoom`). -/
def Inv (st : ServerState) : Prop :=
  InvS st.sessions ∧ (st.rooms.map Prod.fst).Nodup
  ∧ InvRooms st.rooms ∧ Inv3 st.sessions st.rooms

/-! ## Supporting lemmas -/

theorem alookup_aset_self {α : Type} (k : String) (v : α) (l : List (String × α)) :
    alookup k (aset k v l) = some v := by
  induction l with
  | nil => simp [aset, alookup]
  | cons h t ih =>
    by_cases hk : h.1 = k <;> simp [aset, alookup, hk, ih]

theorem alookup_aset_ne {α : Type} {k k' : String} (v : α) (l : List (String × α))
    (h : k' ≠ k) : alookup k' (aset k v l) = alookup k' l := by
  induction l with
  | nil => simp [aset, alookup, Ne.symm h]
  | cons hd t ih =>
    by_cases hk : hd.1 = k
    · simp [aset, alookup, hk, Ne.symm h]
    · simp [aset, alookup, hk, ih]

theorem alookup_mem {α : Type} {k : String} {v : α} {l : List (String × α)}
    (h : alookup k l = some v) : (k, v) ∈ l := by
  induction l with
  | nil => simp [alookup] at h
  | cons hd t ih =>
    by_cases hk : hd.1 = k
    · simp [alookup, hk] at h
      cases hd
      simp_all
    · simp [alookup, hk] at h
      exact List.mem_cons_of_mem _ (ih h)

theorem mem_aset {α : Type} {k : String} {v : α} {l : List (String × α)}
    {e : String × α} (h : e ∈ aset k v l) : e = (k, v) ∨ e ∈ l := by
  induction l with
  | nil => simpa [aset] using h
  | cons hd t ih =>
    by_cases hk : hd.1 = k
    · simp only [aset, if_pos hk, List.mem_cons] at h
      rcases h with h | h
      · exact Or.inl h
      · exact Or.inr (List.mem_cons_of_mem _ h)
    · simp only [aset, if_neg hk, List.mem_cons] at h
      rcases h with h | h
      · exact Or.inr (by simp [h])
      · rcases ih h with h' | h'
        · exact Or.inl h'
        · exact Or.inr (by simp [h'])

theorem aremove_sublist {α : Type} (k : String) (l : List (String × α)) :
    List.Sublist (aremove k l) l := by
  induction l with
  | nil => simp [aremove]
  | cons hd t ih =>
    by_cases hk : hd.1 = k
    · simp only [aremove, if_pos hk]
      exact List.sublist_cons_self hd t
    · simp only [aremove, if_neg hk]
      exact ih.cons₂ hd

theorem mem_aremove {α : Type} {k : String} {l : List (String × α)} {e : String × α}
    (h : e ∈ aremove k l) : e ∈ l :=
  (aremove_sublist k l).subset h

theorem alookup_aremove_ne {α : Type} {k k' : String} (l : List (String × α))
    (h : k' ≠ k) : alookup k' (aremove k l) = alookup k' l := by
  induction l with
  | nil => simp [aremove]
  | cons hd t ih =>
    by_cases hk : hd.1 = k
    · simp only [aremove, if_pos hk, alookup]
      rw [if_neg (by rw [hk]; exact fun e => h e.symm)]
    · simp only [aremove, if_neg hk, alookup, ih]

theorem alookup_eq_none_not_mem {α : Type} {k : String} {l : List (String × α)}
    (h : alookup k l = none) (v : α) : (k, v) ∉ l := by
  induction l with
  | nil => simp
  | cons hd t ih =>
    by_cases hk : hd.1 = k
    · simp [alookup, hk] at h
    · simp only [alookup, hk, if_false] at h
      intro hm
      rcases List.mem_cons.mp hm with he | he
      · exact hk (by rw [← he])
      · exact ih h he

theorem mem_keys_aset {α : Type} {k x : String} {v : α} {l : List (String × α)}
    (h : x ∈ (aset k v l).map Prod.fst) : x = k ∨ x ∈ l.map Prod.fst := by
  rcases List.mem_map.mp h with ⟨e, he, hx⟩
  rcases mem_aset he with h' | h'
  · left; rw [← hx, h']
  · right; exact hx ▸ List.mem_map_of_mem _ h'

theorem nodup_keys_aset {α : Type} {k : String} {v : α} {l : List (String × α)}
    (h : (l.map Prod.fst).Nodup) : ((aset k v l).map Prod.fst).Nodup := by
  induction l with
  | nil => simp [aset]
  | cons hd t ih =>
    simp only [List.map_cons, List.nodup_cons] at h
    obtain ⟨hni, hnd⟩ := h
    by_cases hk : hd.1 = k
    · simp only [aset, if_pos hk, List.map_cons, List.nodup_cons]
      exact ⟨by rw [← hk]; exact hni, hnd⟩
    · simp only [aset, if_neg hk, List.map_cons, List.nodup_cons]
      refine ⟨fun hm => ?_, ih hnd⟩
      rcases mem_keys_aset hm with h' | h'
      · exact hk h' 
      · exact hni h'

theorem nodup_keys_aremove {α : Type} {k : String} {l : List (String × α)}
    (h : (l.map Prod.fst).Nodup) : ((aremove k l).map Prod.fst).Nodup :=
  ((aremove_sublist k l).map Prod.fst).nodup h

theorem alookup_of_mem_nodup {α : Type} {k : String} {v : α} {l : List (String × α)}
    (hmem : (k, v) ∈ l) (hnd : (l.map Prod.fst).Nodup) : alookup k l = some v := by
  induction l with
  | nil => simp at hmem
  | cons hd t ih =>
    simp only [List.map_cons, List.nodup_cons] at hnd
    obtain ⟨hni, hnd'⟩ := hnd
    rcases List.mem_cons.mp hmem with he | he
    · rw [← he]
      simp [alookup]
    · have hk : hd.1 ≠ k := by
        intro hk
        exact hni (hk ▸ List.mem_map_of_mem Prod.fst he)
      simp only [alookup, hk, if_false]
      exact ih he hnd'

/-- Replacing the session entry at `k` with a client that agrees with the
replaced record on `peerId` and on any set `roomId` preserves an index
witness. -/
theorem invWitness_aset {sessions : List (String × Client)} {k : String}
    {v : Client} {rk : String} {pe : String × String × MKind}
    (hag : ∀ c0, alookup k sessions = some c0 →
      v.peerId = c0.peerId ∧ ∀ r, c0.roomId = some r → v.roomId = some r)
    (hw : invWitness sessions rk pe) : invWitness (aset k v sessions) rk pe := by
  rcases hw with ⟨sid, c, hl, hp, hr⟩
  by_cases hsk : sid = k
  · subst hsk
    rcases hag c hl with ⟨hvp, hvr⟩
    exact ⟨sid, v, alookup_aset_self _ _ _, hvp.trans hp, hvr _ hr⟩
  · exact ⟨sid, c, (alookup_aset_ne _ _ hsk).trans hl, hp, hr⟩

/-- A witness survives removal of a session whose record cannot be the
witness. -/
theorem invWitness_aremove {sessions : List (String × Client)} {k : String}
    {rk : String} {pe : String × String × MKind}
    (hno : ∀ c, alookup k sessions = some c → c.peerId ≠ pe.2.1 ∨ c.roomId ≠ some rk)
    (hw : invWitness sessions rk pe) : invWitness (aremove k sessions) rk pe := by
  rcases hw with ⟨sid, c, hl, hp, hr⟩
  by_cases hsk : sid = k
  · subst hsk
    rcases hno c hl with h | h
    · exact absurd hp h
    · exact absurd hr h
  · exact ⟨sid, c, (alookup_aremove_ne _ hsk).trans hl, hp, hr⟩

theorem mem_aset_nodup {α : Type} {k : String} {v : α} {l : List (String × α)}
    {e : String × α} (hnd : (l.map Prod.fst).Nodup) (h : e ∈ aset k v l) :
    e = (k, v) ∨ (e ∈ l ∧ e.1 ≠ k) := by
  induction l with
  | nil => simpa [aset] using h
  | cons hd t ih =>
    simp only [List.map_cons, List.nodup_cons] at hnd
    obtain ⟨hni, hnd'⟩ := hnd
    by_cases hk : hd.1 = k
    · simp only [aset, if_pos hk, List.mem_cons] at h
      rcases h with h | h
      · exact Or.inl h
      · refine Or.inr ⟨List.mem_cons_of_mem _ h, fun he => ?_⟩
        exact hni (by rw [hk, ← he]; exact List.mem_map_of_mem Prod.fst h)
    · simp only [aset, if_neg hk, List.mem_cons] at h
      rcases h with h | h
      · exact Or.inr ⟨by simp [h], by rw [h]; exact hk⟩
      · rcases ih hnd' h with h' | ⟨hm, hne⟩
        · exact Or.inl h'
        · exact Or.inr ⟨List.mem_cons_of_mem _ hm, hne⟩

theorem findByWs_mem {wsId : Nat} {l : List (String × Client)} {c : Client}
    (h : findByWs wsId l = some c) : ∃ k, (k, c) ∈ l := by
  induction l with
  | nil => simp [findByWs] at h
  | cons hd t ih =>
    by_cases hw : hd.2.wsId = wsId
    · simp only [findByWs, if_pos hw] at h
      exact ⟨hd.1, by cases hd; simp_all⟩
    · simp only [findByWs, if_neg hw] at h
      rcases ih h with ⟨k, hk⟩
      exact ⟨k, List.mem_cons_of_mem _ hk⟩

/-! ### Invariant preservation through the primitive state updates. -/

theorem invS_aset {sessions : List (String × Client)} {k : String} {v : Client}
    (h : InvS sessions) (hk : v.sessionId = k) : InvS (aset k v sessions) := by
  refine ⟨fun e he => ?_, nodup_keys_aset h.2⟩
  rcases mem_aset he with he' | he'
  · rw [he']
    exact hk
  · exact h.1 e he'

theorem invS_aremove {sessions : List (String × Client)} {k : String}
    (h : InvS sessions) : InvS (aremove k sessions) :=
  ⟨fun e he => h.1 e (mem_aremove he), nodup_keys_aremove h.2⟩

theorem inv3_aset_session {sessions : List (String × Client)}
    {rooms : List (String × RoomRec)} {k : String} {v : Client}
    (hag : ∀ c0, alookup k sessions = some c0 →
      v.peerId = c0.peerId ∧ ∀ r, c0.roomId = some r → v.roomId = some r)
    (h3 : Inv3 sessions rooms) : Inv3 (aset k v sessions) rooms :=
  fun e he pe hpe => invWitness_aset hag (h3 e he pe hpe)

theorem inv3_aset_room {sessions : List (String × Client)}
    {rooms : List (String × RoomRec)} {rk : String} {rm : RoomRec}
    (h3 : Inv3 sessions rooms)
    (hrm : ∀ pe ∈ rm.producers, invWitness sessions rk pe) :
    Inv3 sessions (aset rk rm rooms) := by
  intro e he pe hpe
  rcases mem_aset he with he' | he'
  · rcases Prod.mk.injEq _ _ _ _ ▸ he' with ⟨h1, h2⟩
    subst h1
    exact hrm pe (h2 ▸ hpe)
  · exact h3 e he' pe hpe

theorem invRooms_aset {rooms : List (String × RoomRec)} {rk : String} {rm : RoomRec}
    (h : InvRooms rooms) (ha : rm.attached = []) (hs : rm.speaking = []) :
    InvRooms (aset rk rm rooms) := by
  intro e he
  rcases mem_aset he with he' | he'
  · rw [he']
    exact ⟨ha, hs⟩
  · exact h e he'

/-- `detachEverywhere` preserves the whole invariant and touches only the
rooms' attached sets. -/
theorem inv_detachEverywhere {st : ServerState} (pids : List String) (h : Inv st) :
    Inv (detachEverywhere pids st) := by
  obtain ⟨hS, hN, hR, h3⟩ := h
  refine ⟨hS, ?_, ?_, ?_⟩
  · simpa [detachEverywhere, List.map_map, Function.comp] using hN
  · intro e he
    rcases List.mem_map.mp he with ⟨e0, he0, hfe⟩
    rcases hR e0 he0 with ⟨ha, hs⟩
    rw [← hfe]
    exact ⟨by simp [ha], hs⟩
  · intro e he pe hpe
    rcases List.mem_map.mp he with ⟨e0, he0, hfe⟩
    refine ?_
    have : pe ∈ e0.2.producers := by rw [← hfe] at hpe; exact hpe
    have hw := h3 e0 he0 pe this
    rw [← hfe]
    exact hw

/-- The invariant ignores the engine-bookkeeping fields. -/
theorem inv_update_live {st : ServerState} {l : List String} (h : Inv st) :
    Inv { st with liveTransports := l } := h

/-- `resetPeerMedia` never touches the session registry and preserves the
invariant. -/
theorem resetPeerMedia_facts {st : ServerState} (c : Client) (h : Inv st) :
    (resetPeerMedia st c).1.sessions = st.sessions ∧ Inv (resetPeerMedia st c).1 := by
  obtain ⟨hS, hN, hR, h3⟩ := h
  unfold resetPeerMedia
  rcases hcr : c.roomId with _ | rid
  · simp only [hcr]
    exact ⟨rfl, inv_update_live (inv_detachEverywhere _ ⟨hS, hN, hR, h3⟩)⟩
  · rcases hlk : alookup rid st.rooms with _ | room
    · simp only [hcr, hlk]
      exact ⟨rfl, inv_update_live (inv_detachEverywhere _ ⟨hS, hN, hR, h3⟩)⟩
    · simp only [hcr, hlk]
      have hmem := alookup_mem hlk
      rcases hR _ hmem with ⟨hatt, hspk⟩
      refine ⟨rfl, inv_update_live (inv_detachEverywhere _ (inv_detachEverywhere _ ?_))⟩
      refine ⟨hS, ?_, ?_, ?_⟩ <;> dsimp only
      · exact nodup_keys_aset hN
      · apply invRooms_aset hR
        · exact hatt
        · show List.filter _ room.speaking = []
          rw [show room.speaking = [] from hspk]
          rfl
      · apply inv3_aset_room h3
        intro pe hpe
        exact h3 _ hmem pe (List.mem_filter.mp hpe).1

/-- Invariance is a property of the sessions and rooms components only. -/
theorem inv_of_eq {st st' : ServerState} (h : Inv st)
    (hs : st'.sessions = st.sessions) (hr : st'.rooms = st.rooms) : Inv st' := by
  unfold Inv InvS InvRooms Inv3 at *
  rw [hs, hr]
  exact h

/-- `requireBoundIdentity` never touches sessions or rooms. -/
theorem requireBoundIdentity_state {tokenPeerId tokenSessionId msgSessionId : String}
    {st : ServerState} {p s : String} {st0 : ServerState}
    (h : requireBoundIdentity tokenPeerId tokenSessionId msgSessionId st
      = Except.ok (p, s, st0)) :
    st0.sessions = st.sessions ∧ st0.rooms = st.rooms := by
  unfold requireBoundIdentity at h
  repeat' split at h
  all_goals first
    | (simp only [Except.ok.injEq, Prod.mk.injEq] at h
       obtain ⟨h1, h2, h3⟩ := h
       rw [← h3]
       exact ⟨rfl, rfl⟩)
    | exact absurd h (by simp)

/-- `getRoom` keeps the sessions, preserves the invariant, and returns a
room whose producer entries are all witnessed. -/
theorem getRoom_facts {st : ServerState} (rid : String) (h : Inv st) :
    (getRoom st rid).2.sessions = st.sessions ∧ Inv (getRoom st rid).2
    ∧ (∀ pe ∈ (getRoom st rid).1.producers, invWitness st.sessions rid pe)
    ∧ (getRoom st rid).1.attached = [] ∧ (getRoom st rid).1.speaking = [] := by
  obtain ⟨hS, hN, hR, h3⟩ := h
  unfold getRoom
  rcases hlk : alookup rid st.rooms with _ | room
  · simp only [hlk]
    refine ⟨rfl, ⟨hS, ?_, ?_, ?_⟩, ?_, by trivial, by trivial⟩ <;> dsimp only
    · exact nodup_keys_aset hN
    · exact invRooms_aset hR rfl rfl
    · exact inv3_aset_room h3 (fun pe hpe => absurd hpe (by simp))
    · intro pe hpe
      exact absurd hpe (by simp)
  · simp only [hlk]
    rcases hR _ (alookup_mem hlk) with ⟨hatt, hspk⟩
    exact ⟨by trivial, ⟨hS, hN, hR, h3⟩,
      fun pe hpe => h3 _ (alookup_mem hlk) pe hpe, hatt, hspk⟩

/-- `adoptPeer` preserves the invariant; the updated client keeps the
identity of the adopted record and is registered under its session id. -/
theorem inv_adoptPeer {st : ServerState} {conn : ConnInfo} {peer : Client}
    {peerId : String} {st1 : ServerState} {outs : List Out} {c' : Client}
    (h : Inv st) (hlook : alookup peer.sessionId st.sessions = some peer)
    (hok : adoptPeer st conn peer peerId = Except.ok (st1, outs, c')) :
    Inv st1 ∧ alookup peer.sessionId st1.sessions = some c'
    ∧ c'.sessionId = peer.sessionId ∧ c'.peerId = peer.peerId
    ∧ c'.roomId = peer.roomId := by
  unfold adoptPeer at hok
  by_cases hpg : peer.peerId ≠ peerId
  · rw [if_pos hpg] at hok
    exact absurd hok (by simp)
  · rw [if_neg hpg] at hok
    simp only [Except.ok.injEq, Prod.mk.injEq] at hok
    obtain ⟨hst, -, hc⟩ := hok
    subst hst
    subst hc
    obtain ⟨hsess, hres⟩ :=
      resetPeerMedia_facts { peer with cleanupTimer := false } h
    obtain ⟨hS1, hN1, hR1, h31⟩ := hres
    have hagree : ∀ c0,
        alookup peer.sessionId
          (resetPeerMedia st { peer with cleanupTimer := false }).1.sessions
          = some c0 →
        c0 = peer := by
      intro c0 hc0
      rw [hsess, hlook] at hc0
      exact (Option.some.injEq _ _ ▸ hc0).symm
    refine ⟨⟨?_, hN1, hR1, ?_⟩, ?_, rfl, rfl, rfl⟩
    · exact invS_aset hS1 rfl
    · apply inv3_aset_session ?_ h31
      intro c0 hc0
      rw [hagree c0 hc0]
      exact ⟨rfl, fun r hr => hr⟩
    · exact alookup_aset_self _ _ _

/-- Re-registering a client under its own session key with identity and
room unchanged preserves the invariant. -/
theorem inv_session_update {st st' : ServerState} {peer v : Client}
    (h : Inv st) (hlook : alookup peer.sessionId st.sessions = some peer)
    (hid : v.sessionId = peer.sessionId) (hpid : v.peerId = peer.peerId)
    (hrid : v.roomId = peer.roomId)
    (hs : st'.sessions = aset peer.sessionId v st.sessions)
    (hr : st'.rooms = st.rooms) : Inv st' := by
  obtain ⟨hS, hN, hR, h3⟩ := h
  refine ⟨?_, ?_, ?_, ?_⟩
  · rw [hs]
    exact invS_aset hS hid
  · rw [hr]
    exact hN
  · rw [hr]
    exact hR
  · rw [hs, hr]
    apply inv3_aset_session ?_ h3
    intro c0 hc0
    rw [hlook] at hc0
    injection hc0 with he
    subst he
    exact ⟨hpid, fun r hr2 => by rw [hrid]; exact hr2⟩

/-- Deleting a session whose record cannot witness any index entry
preserves the invariant. -/
theorem inv_session_remove {st st' : ServerState} {key : String} (h : Inv st)
    (hno : ∀ c2, alookup key st.sessions = some c2 →
      ∀ e ∈ st.rooms, ∀ pe ∈ (e : String × RoomRec).2.producers,
        c2.peerId ≠ pe.2.1 ∨ c2.roomId ≠ some e.1)
    (hs : st'.sessions = aremove key st.sessions)
    (hr : st'.rooms = st.rooms) : Inv st' := by
  obtain ⟨hS, hN, hR, h3⟩ := h
  refine ⟨?_, ?_, ?_, ?_⟩
  · rw [hs]
    exact invS_aremove hS
  · rw [hr]
    exact hN
  · rw [hr]
    exact hR
  · rw [hs, hr]
    intro e he pe hpe
    exact invWitness_aremove (fun c2 hc2 => hno c2 hc2 e he pe hpe) (h3 e he pe hpe)

/-- Deleting a room preserves the invariant. -/
theorem inv_rooms_remove {st st' : ServerState} {key : String} (h : Inv st)
    (hs : st'.sessions = st.sessions)
    (hr : st'.rooms = aremove key st.rooms) : Inv st' := by
  obtain ⟨hS, hN, hR, h3⟩ := h
  refine ⟨?_, ?_, ?_, ?_⟩
  · rw [hs]
    exact hS
  · rw [hr]
    exact nodup_keys_aremove hN
  · rw [hr]
    intro e he
    exact hR e (mem_aremove he)
  · rw [hs, hr]
    intro e he pe hpe
    exact h3 e (mem_aremove he) pe hpe

/-- Invariant preservation through a left fold. -/
theorem inv_foldl {α : Type} {f : ServerState → α → ServerState}
    (hf : ∀ acc m, Inv acc → Inv (f acc m)) :
    ∀ (l : List α) (acc : ServerState), Inv acc → Inv (l.foldl f acc)
  | [], _, h => h
  | m :: t, acc, h => inv_foldl hf t (f acc m) (hf acc m h)

/-- The room-entry composite shared by `join` and by the resume path of a
room-less session: the client is re-registered with the room id and added
to the room's peer map; the invariant is preserved. -/
theorem inv_enterRoom {st1 : ServerState} {sessionId roomId : String} {pr pr' : Client}
    {room room' : RoomRec} {st3 : ServerState}
    (h : Inv st1) (hlook : alookup sessionId st1.sessions = some pr)
    (hguard : ∀ r, pr.roomId = some r → r = roomId)
    (hpr' : pr' = { pr with roomId := some roomId })
    (hgr : getRoom { st1 with sessions := aset sessionId pr' st1.sessions } roomId
      = (room, st3))
    (hroom' : room' = { room with peers := aset pr'.peerId sessionId room.peers }) :
    Inv { st3 with rooms := aset roomId room' st3.rooms } := by
  have hsid : pr.sessionId = sessionId := h.1.1 _ (alookup_mem hlook)
  have hid' : pr'.sessionId = sessionId := by rw [hpr']; exact hsid
  have hpid' : pr'.peerId = pr.peerId := by rw [hpr']
  have hrid' : pr'.roomId = some roomId := by rw [hpr']
  have h2 : Inv { st1 with sessions := aset sessionId pr' st1.sessions } := by
    obtain ⟨hS, hN, hR, h3⟩ := h
    refine ⟨invS_aset hS hid', hN, hR, ?_⟩
    apply inv3_aset_session ?_ h3
    intro c0 hc0
    rw [hlook] at hc0
    injection hc0 with he
    subst he
    refine ⟨hpid', fun r hr => ?_⟩
    rw [hrid', hguard r hr]
  have hfacts := getRoom_facts roomId h2
  rw [hgr] at hfacts
  obtain ⟨hse, hinv3, hwit, hatt, hspk⟩ := hfacts
  obtain ⟨hS3, hN3, hR3, h33⟩ := hinv3
  refine ⟨hS3, nodup_keys_aset hN3, ?_, ?_⟩
  · apply invRooms_aset hR3
    · rw [hroom']
      exact hatt
    · rw [hroom']
      exact hspk
  · apply inv3_aset_room h33
    intro pe hpe
    rw [hroom'] at hpe
    have hw := hwit pe hpe
    have hse' : st3.sessions = aset sessionId pr' st1.sessions := hse
    rw [hse']
    exact hw

/-- Registering a fresh client under an unused session key preserves the
invariant. -/
theorem inv_register_fresh {st0 : ServerState} {sessionId : String} {v : Client}
    (h0 : Inv st0) (hid : v.sessionId = sessionId)
    (h3 : alookup sessionId st0.sessions = none) :
    Inv { st0 with sessions := aset sessionId v st0.sessions } := by
  obtain ⟨hS, hN, hR, h3i⟩ := h0
  refine ⟨invS_aset hS hid, hN, hR, ?_⟩
  apply inv3_aset_session ?_ h3i
  intro c0 hc0
  rw [h3] at hc0
  exact absurd hc0 (by simp)

/-- `join` preserves the invariant. -/
theorem inv_handleJoin {st : ServerState} {conn : ConnInfo} {msg : ClientMsg}
    (h : Inv st) : Inv (handleJoin st conn msg).1 := by
  unfold handleJoin
  rcases h1 : requireRoomIdMatch conn.tokenRoomId msg.payload.roomId with e | roomId
  · simp only [h1]
    exact h
  simp only [h1]
  rcases h2 : requireBoundIdentity conn.tokenPeerId conn.tokenSessionId
      msg.payload.sessionId st with e | ⟨peerId, sessionId, st0⟩
  · simp only [h2]
    exact h
  simp only [h2]
  obtain ⟨hsse, hroe⟩ := requireBoundIdentity_state h2
  have h0 : Inv st0 := inv_of_eq h hsse hroe
  rcases h3 : alookup sessionId st0.sessions with _ | peer
  · simp only [h3]
    rw [if_neg (by simp)]
    exact @inv_enterRoom _ sessionId roomId
      ⟨sessionId, peerId, conn.wsId, none, none, none, [], [], false⟩
      ⟨sessionId, peerId, conn.wsId, some roomId, none, none, [], [], false⟩
      _ _ _
      (@inv_register_fresh _ _
        ⟨sessionId, peerId, conn.wsId, none, none, none, [], [], false⟩ h0 rfl h3)
      (alookup_aset_self _ _ _) (by simp) rfl rfl rfl
  · simp only [h3]
    have hpsid : peer.sessionId = sessionId := h0.1.1 _ (alookup_mem h3)
    rcases h4 : adoptPeer st0 conn peer peerId with e | ⟨st1, outs1, c'⟩
    · simp only [h4]
      exact h0
    simp only [h4]
    obtain ⟨hInv1, hlook1, hsid1, hpid1, hrid1⟩ :=
      inv_adoptPeer h0 (by rw [hpsid]; exact h3) h4
    rw [hpsid] at hlook1
    by_cases h5 : c'.roomId.isSome ∧ c'.roomId ≠ some roomId
    · rw [if_pos h5]
      exact hInv1
    · rw [if_neg h5]
      have hguard : ∀ r, c'.roomId = some r → r = roomId := by
        intro r hr
        by_contra hne
        exact h5 ⟨by rw [hr]; rfl, by rw [hr]; simp [hne]⟩
      exact inv_enterRoom hInv1 hlook1 hguard rfl rfl rfl

/-- `resumeSession` preserves the invariant. -/
theorem inv_handleResume {st : ServerState} {conn : ConnInfo} {msg : ClientMsg}
    (h : Inv st) : Inv (handleResume st conn msg).1 := by
  unfold handleResume
  rcases h1 : requireRoomIdMatch conn.tokenRoomId msg.payload.roomId with e | roomId
  · simp only [h1]
    exact h
  simp only [h1]
  rcases h2 : requireBoundIdentity conn.tokenPeerId conn.tokenSessionId
      msg.payload.sessionId st with e | ⟨peerId, sessionId, st0⟩
  · simp only [h2]
    exact h
  simp only [h2]
  obtain ⟨hsse, hroe⟩ := requireBoundIdentity_state h2
  have h0 : Inv st0 := inv_of_eq h hsse hroe
  rcases h3 : alookup sessionId st0.sessions with _ | peer
  · simp only [h3]
    rw [if_neg (by simp)]
    exact @inv_enterRoom _ sessionId roomId
      ⟨sessionId, peerId, conn.wsId, none, none, none, [], [], false⟩
      ⟨sessionId, peerId, conn.wsId, some roomId, none, none, [], [], false⟩
      _ _ _
      (@inv_register_fresh _ _
        ⟨sessionId, peerId, conn.wsId, none, none, none, [], [], false⟩ h0 rfl h3)
      (alookup_aset_self _ _ _) (by simp) rfl rfl rfl
  · simp only [h3]
    have hpsid : peer.sessionId = sessionId := h0.1.1 _ (alookup_mem h3)
    rcases h4 : adoptPeer st0 conn peer peerId with e | ⟨st1, outs1, c'⟩
    · simp only [h4]
      exact h0
    simp only [h4]
    obtain ⟨hInv1, hlook1, hsid1, hpid1, hrid1⟩ :=
      inv_adoptPeer h0 (by rw [hpsid]; exact h3) h4
    rw [hpsid] at hlook1
    by_cases h5 : c'.roomId.isSome ∧ c'.roomId ≠ some roomId
    · rw [if_pos h5]
      exact hInv1
    · rw [if_neg h5]
      rcases h6 : c'.roomId with _ | rid0
      · simp only [h6]
        have hguard : ∀ r, c'.roomId = some r → r = roomId := by
          intro r hr
          rw [h6] at hr
          exact absurd hr (by simp)
        exact inv_enterRoom hInv1 hlook1 hguard rfl rfl rfl
      · simp only [h6]
        exact hInv1

/-- Re-registering a client under its own key, with the other state
components arbitrary but the rooms unchanged, preserves the invariant. -/
theorem inv_session_put {st : ServerState} {peer v : Client}
    {lt : List String} {pm cm : List (String × String × String)} {ni : Nat}
    (h : Inv st) (hlook : alookup peer.sessionId st.sessions = some peer)
    (hid : v.sessionId = peer.sessionId) (hpid : v.peerId = peer.peerId)
    (hrid : v.roomId = peer.roomId) :
    Inv ⟨aset peer.sessionId v st.sessions, st.rooms, lt, pm, cm, ni⟩ := by
  obtain ⟨hS, hN, hR, h3⟩ := h
  refine ⟨invS_aset hS hid, hN, hR, ?_⟩
  apply inv3_aset_session ?_ h3
  intro c0 hc0
  rw [hlook] at hc0
  injection hc0 with he
  subst he
  exact ⟨hpid, fun r hr2 => by rw [hrid]; exact hr2⟩

/-- `createTransport` preserves the invariant. -/
theorem inv_hCreateTransport {st : ServerState} {peer : Client} {pl : Payload}
    {st' : ServerState} {d : RData} (h : Inv st)
    (hlook : alookup peer.sessionId st.sessions = some peer)
    (hok : hCreateTransport st peer pl = Except.ok (st', d)) : Inv st' := by
  unfold hCreateTransport at hok
  split at hok
  · exact absurd hok (by simp)
  rcases h2 : peer.roomId with _ | rid
  · simp only [h2] at hok
    exact absurd hok (by simp)
  simp only [h2, freshId] at hok
  rcases h3 : alookup rid st.rooms with _ | room
  · simp only [h3] at hok
    exact absurd hok (by simp)
  simp only [h3, Except.ok.injEq, Prod.mk.injEq] at hok
  obtain ⟨h5, -⟩ := hok
  rw [← h5]
  by_cases hd : pl.direction = "send"
  · rw [if_pos hd]
    exact inv_session_put h hlook rfl rfl h2.symm
  · rw [if_neg hd]
    exact inv_session_put h hlook rfl rfl h2.symm

/-- `produce` preserves the invariant. -/
theorem inv_hProduce {st : ServerState} {peer : Client} {pl : Payload}
    {st' : ServerState} {d : RData} (h : Inv st)
    (hlook : alookup peer.sessionId st.sessions = some peer)
    (hok : hProduce st peer pl = Except.ok (st', d)) : Inv st' := by
  unfold hProduce at hok
  split at hok
  · exact absurd hok (by simp)
  rcases h2 : peer.send with _ | sendTid
  · simp only [h2] at hok
    exact absurd hok (by simp)
  simp only [h2] at hok
  split at hok
  · exact absurd hok (by simp)
  simp only [freshId] at hok
  rcases h4 : peer.roomId with _ | rid
  · simp only [h4, Except.ok.injEq, Prod.mk.injEq] at hok
    obtain ⟨h5, -⟩ := hok
    rw [← h5]
    exact inv_session_put h hlook rfl rfl h4.symm
  simp only [h4] at hok
  rcases h6 : alookup rid st.rooms with _ | room
  · simp only [h6, Except.ok.injEq, Prod.mk.injEq] at hok
    obtain ⟨h5, -⟩ := hok
    rw [← h5]
    exact inv_session_put h hlook rfl rfl h4.symm
  simp only [h6, Except.ok.injEq, Prod.mk.injEq] at hok
  obtain ⟨h5, -⟩ := hok
  rw [← h5]
  obtain ⟨hS, hN, hR, h3⟩ := h
  refine ⟨invS_aset hS rfl, nodup_keys_aset hN, ?_, ?_⟩
  · exact invRooms_aset hR (hR _ (alookup_mem h6)).1 (hR _ (alookup_mem h6)).2
  · refine inv3_aset_room (inv3_aset_session ?_ h3) ?_
    · intro c0 hc0
      rw [hlook] at hc0
      injection hc0 with he
      subst he
      exact ⟨rfl, fun r hr2 => by rw [h4] at hr2; exact hr2⟩
    · intro pe hpe
      rcases mem_aset hpe with he | he
      · rw [he]
        exact ⟨peer.sessionId, _, alookup_aset_self _ _ _, rfl, rfl⟩
      · apply invWitness_aset ?_ (h3 _ (alookup_mem h6) pe he)
        intro c0 hc0
        rw [hlook] at hc0
        injection hc0 with he2
        subst he2
        exact ⟨rfl, fun r hr2 => by rw [h4] at hr2; exact hr2⟩

/-- `consume` preserves the invariant. -/
theorem inv_hConsume {canC : String → Bool} {st : ServerState} {peer : Client}
    {pl : Payload} {st' : ServerState} {d : RData} (h : Inv st)
    (hlook : alookup peer.sessionId st.sessions = some peer)
    (hok : hConsume canC st peer pl = Except.ok (st', d)) : Inv st' := by
  unfold hConsume at hok
  split at hok
  · exact absurd hok (by simp)
  rcases h2 : peer.recv with _ | recvTid
  · simp only [h2] at hok
    exact absurd hok (by simp)
  simp only [h2] at hok
  rcases h3 : peer.roomId with _ | rid
  · simp only [h3] at hok
    exact absurd hok (by simp)
  simp only [h3] at hok
  rcases h4 : alookup rid st.rooms with _ | room
  · simp only [h4] at hok
    exact absurd hok (by simp)
  simp only [h4] at hok
  split at hok
  · exact absurd hok (by simp)
  rcases h5 : alookup pl.producerId room.producers with _ | entry
  · simp only [h5] at hok
    exact absurd hok (by simp)
  simp only [h5] at hok
  split at hok
  · exact absurd hok (by simp)
  split at hok
  · exact absurd hok (by simp)
  simp only [freshId, Except.ok.injEq, Prod.mk.injEq] at hok
  obtain ⟨h6, -⟩ := hok
  rw [← h6]
  exact inv_session_put h hlook rfl rfl h3.symm

/-- `connectTransport` never changes the state. -/
theorem hConnectTransport_state {st : ServerState} {peer : Client} {pl : Payload}
    {st' : ServerState} {d : RData}
    (hok : hConnectTransport st peer pl = Except.ok (st', d)) : st' = st := by
  unfold hConnectTransport at hok
  repeat' split at hok
  all_goals first
    | (simp only [Except.ok.injEq, Prod.mk.injEq] at hok
       exact hok.1.symm)
    | exact absurd hok (by simp)

/-- `pauseProducer` never changes the state. -/
theorem hPauseProducer_state {st : ServerState} {peer : Client} {pl : Payload}
    {st' : ServerState} {d : RData}
    (hok : hPauseProducer st peer pl = Except.ok (st', d)) : st' = st := by
  unfold hPauseProducer at hok
  repeat' split at hok
  all_goals first
    | (simp only [Except.ok.injEq, Prod.mk.injEq] at hok
       exact hok.1.symm)
    | exact absurd hok (by simp)

/-- `resumeProducer` never changes the state. -/
theorem hResumeProducer_state {st : ServerState} {peer : Client} {pl : Payload}
    {st' : ServerState} {d : RData}
    (hok : hResumeProducer st peer pl = Except.ok (st', d)) : st' = st := by
  unfold hResumeProducer at hok
  repeat' split at hok
  all_goals first
    | (simp only [Except.ok.injEq, Prod.mk.injEq] at hok
       exact hok.1.symm)
    | exact absurd hok (by simp)

/-- `pauseConsumer` never changes the state. -/
theorem hPauseConsumer_state {st : ServerState} {peer : Client} {pl : Payload}
    {st' : ServerState} {d : RData}
    (hok : hPauseConsumer st peer pl = Except.ok (st', d)) : st' = st := by
  unfold hPauseConsumer at hok
  repeat' split at hok
  all_goals first
    | (simp only [Except.ok.injEq, Prod.mk.injEq] at hok
       exact hok.1.symm)
    | exact absurd hok (by simp)

/-- `resumeConsumer` never changes the state. -/
theorem hResumeConsumer_state {st : ServerState} {peer : Client} {pl : Payload}
    {st' : ServerState} {d : RData}
    (hok : hResumeConsumer st peer pl = Except.ok (st', d)) : st' = st := by
  unfold hResumeConsumer at hok
  repeat' split at hok
  all_goals first
    | (simp only [Except.ok.injEq, Prod.mk.injEq] at hok
       exact hok.1.symm)
    | exact absurd hok (by simp)

/-- The dispatcher preserves the invariant. -/
theorem inv_dispatch {canC : String → Bool} {st : ServerState} {peer : Client}
    {msg : ClientMsg} {st' : ServerState} {d : RData} (h : Inv st)
    (hlook : alookup peer.sessionId st.sessions = some peer)
    (hok : dispatch canC st peer msg = Except.ok (st', d)) : Inv st' := by
  unfold dispatch at hok
  by_cases t1 : msg.type = "createTransport"
  · rw [if_pos t1] at hok
    exact inv_hCreateTransport h hlook hok
  rw [if_neg t1] at hok
  by_cases t2 : msg.type = "connectTransport"
  · rw [if_pos t2] at hok
    rw [hConnectTransport_state hok]
    exact h
  rw [if_neg t2] at hok
  by_cases t3 : msg.type = "produce"
  · rw [if_pos t3] at hok
    exact inv_hProduce h hlook hok
  rw [if_neg t3] at hok
  by_cases t4 : msg.type = "pauseProducer"
  · rw [if_pos t4] at hok
    rw [hPauseProducer_state hok]
    exact h
  rw [if_neg t4] at hok
  by_cases t5 : msg.type = "resumeProducer"
  · rw [if_pos t5] at hok
    rw [hResumeProducer_state hok]
    exact h
  rw [if_neg t5] at hok
  by_cases t6 : msg.type = "consume"
  · rw [if_pos t6] at hok
    exact inv_hConsume h hlook hok
  rw [if_neg t6] at hok
  by_cases t7 : msg.type = "pauseConsumer"
  · rw [if_pos t7] at hok
    rw [hPauseConsumer_state hok]
    exact h
  rw [if_neg t7] at hok
  by_cases t8 : msg.type = "resumeConsumer"
  · rw [if_pos t8] at hok
    rw [hResumeConsumer_state hok]
    exact h
  rw [if_neg t8] at hok
  exact absurd hok (by simp)

/-- `handleRest` preserves the invariant on success. -/
theorem inv_handleRest {canC : String → Bool} {st : ServerState} {authed : String}
    {msg : ClientMsg} {st' : ServerState} {d : RData} (h : Inv st)
    (hok : handleRest canC st authed msg = Except.ok (st', d)) : Inv st' := by
  unfold handleRest at hok
  rcases hpk : (if msg.payload.sessionId = "" then none
      else alookup msg.payload.sessionId st.sessions) with _ | peer
  · simp only [hpk] at hok
    exact absurd hok (by simp)
  simp only [hpk] at hok
  have hlook : alookup peer.sessionId st.sessions = some peer := by
    by_cases hs0 : msg.payload.sessionId = ""
    · rw [if_pos hs0] at hpk
      exact absurd hpk (by simp)
    · rw [if_neg hs0] at hpk
      have hk := h.1.1 _ (alookup_mem hpk)
      rw [hk]
      exact hpk
  rcases hpr : peer.roomId with _ | r
  · simp only [hpr] at hok
    exact inv_dispatch h hlook hok
  · simp only [hpr] at hok
    rcases hrm : requireRoomIdMatch authed r with e | rid
    · simp only [hrm] at hok
      exact absurd hok (by simp)
    · simp only [hrm] at hok
      exact inv_dispatch h hlook hok

/-- `listProducers` never changes the state. -/
theorem handleList_state {st : ServerState} {conn : ConnInfo} {msg : ClientMsg} :
    (handleList st conn msg).1 = st := by
  unfold handleList
  repeat' split
  all_goals rfl

/-- The message pump preserves the invariant. -/
theorem inv_handleMessage {canC : String → Bool} {st : ServerState} {conn : ConnInfo}
    {msg : ClientMsg} (h : Inv st) : Inv (handleMessage canC st conn msg).1 := by
  unfold handleMessage
  by_cases t1 : msg.type = "resumeSession"
  · rw [if_pos t1]
    exact inv_handleResume h
  rw [if_neg t1]
  by_cases t2 : msg.type = "join"
  · rw [if_pos t2]
    exact inv_handleJoin h
  rw [if_neg t2]
  by_cases t3 : msg.type = "listProducers" ∨ msg.type = "getRoomProducers"
  · rw [if_pos t3]
    rw [handleList_state]
    exact h
  rw [if_neg t3]
  rcases hr : handleRest canC st conn.tokenRoomId msg with e | p
  · simp only [hr]
    exact h
  · simp only [hr]
    exact inv_handleRest h hr

/-- A connection close (grace arming) preserves the invariant. -/
theorem inv_wsCloseStep {st : ServerState} (wsId : Nat) (h : Inv st) :
    Inv (wsCloseStep st wsId) := by
  unfold wsCloseStep
  rcases hf : findByWs wsId st.sessions with _ | c
  · simp only [hf]
    exact h
  · simp only [hf]
    obtain ⟨k, hmem⟩ := findByWs_mem hf
    have hk : c.sessionId = k := h.1.1 _ hmem
    have hlook : alookup c.sessionId st.sessions = some c := by
      rw [hk]
      exact alookup_of_mem_nodup hmem h.1.2
    exact inv_session_put h hlook rfl rfl rfl

/-- Conditionally tearing an emptied room down preserves the invariant. -/
theorem inv_if_remove {X : ServerState} {rid : String} {b : Prop} [Decidable b]
    (h : Inv X) : Inv (if b then { X with rooms := aremove rid X.rooms } else X) := by
  split
  · exact inv_rooms_remove h rfl rfl
  · exact h

/-- `destroyPeer` preserves the invariant. -/
theorem inv_destroyPeer {st : ServerState} {c : Client} (h : Inv st)
    (hlook : alookup c.sessionId st.sessions = some c) :
    Inv (destroyPeer st c).1 := by
  unfold destroyPeer
  rcases hcr : c.roomId with _ | rid
  · simp only [hcr]
    refine inv_session_remove h ?_ rfl rfl
    intro c2 hc2 e he pe hpe
    rw [hlook] at hc2
    injection hc2 with he2
    subst he2
    right
    rw [hcr]
    simp
  · simp only [hcr]
    rcases hlk : alookup rid st.rooms with _ | room
    · simp only [hlk]
      refine inv_session_remove h ?_ rfl rfl
      intro c2 hc2 e he pe hpe
      rw [hlook] at hc2
      injection hc2 with he2
      subst he2
      right
      rw [hcr]
      intro heq
      injection heq with heq2
      exact alookup_eq_none_not_mem hlk e.2 (by rw [heq2]; exact he)
    · simp only [hlk]
      refine inv_if_remove ?_
      refine inv_session_remove (inv_detachEverywhere _ ?_) ?_ rfl rfl
      · refine ⟨h.1, nodup_keys_aset h.2.1, ?_, ?_⟩
        · have hspk : room.speaking = [] := (h.2.2.1 _ (alookup_mem hlk)).2
          refine invRooms_aset h.2.2.1 ?_ ?_
          · exact (h.2.2.1 _ (alookup_mem hlk)).1
          · simp [hspk]
        · refine inv3_aset_room h.2.2.2 ?_
          intro pe hpe
          exact h.2.2.2 _ (alookup_mem hlk) pe (List.mem_filter.mp hpe).1
      · intro c2 hc2 e he pe hpe
        have hc2a : alookup c.sessionId st.sessions = some c2 := hc2
        rw [hlook] at hc2a
        injection hc2a with he2
        subst he2
        rcases List.mem_map.mp he with ⟨e0, he0, hfe⟩
        rcases mem_aset_nodup h.2.1 he0 with he1 | ⟨he1, hne⟩
        · subst he1
          left
          rw [← hfe] at hpe
          have hpe2 : pe ∈ room.producers.filter
              (fun e => !decide (e.2.1 = c.peerId)) := hpe
          have hcond := (List.mem_filter.mp hpe2).2
          simp at hcond
          exact fun hh => hcond hh.symm
        · right
          rw [hcr, ← hfe]
          intro heq
          injection heq with heq2
          exact hne heq2.symm

/-- A grace expiry preserves the invariant. -/
theorem inv_graceStep {st : ServerState} (sid : String) (h : Inv st) :
    Inv (graceStep st sid).1 := by
  unfold graceStep
  rcases hc : alookup sid st.sessions with _ | c
  · simp only [hc]
    exact h
  · simp only [hc]
    split
    · refine inv_destroyPeer h ?_
      rw [h.1.1 _ (alookup_mem hc)]
      exact hc
    · exact h

/-- A DTLS transport close preserves the invariant. -/
theorem inv_dtlsCloseStep {st : ServerState} (tid : String) (h : Inv st) :
    Inv (dtlsCloseStep st tid) := by
  unfold dtlsCloseStep
  split
  · refine inv_foldl ?_ _ _ (inv_foldl ?_ _ _ (inv_update_live h))
    · intro acc m hacc
      dsimp only
      rcases hc : alookup m.2.1 acc.sessions with _ | c0
      · simp only [hc]
        exact hacc
      · simp only [hc]
        have hk : c0.sessionId = m.2.1 := hacc.1.1 _ (alookup_mem hc)
        rw [← hk]
        refine inv_session_put hacc ?_ rfl rfl rfl
        rw [hk]
        exact hc
    · intro acc m hacc
      dsimp only
      rcases hc : alookup m.2.1 acc.sessions with _ | c0
      · simp only [hc]
        exact inv_detachEverywhere _ hacc
      · simp only [hc]
        refine inv_detachEverywhere _ ?_
        have hk : c0.sessionId = m.2.1 := hacc.1.1 _ (alookup_mem hc)
        rw [← hk]
        refine inv_session_put hacc ?_ rfl rfl rfl
        rw [hk]
        exact hc
  · exact h

/-- A level-observer volumes tick preserves the invariant. -/
theorem inv_volumesStep {st : ServerState} (rk : String) (vols : List (String × Int))
    (h : Inv st) : Inv (volumesStep st rk vols).1 := by
  unfold volumesStep
  rcases hlk : alookup rk st.rooms with _ | room
  · simp only [hlk]
    exact h
  simp only [hlk]
  split
  · rename_i hall
    have hatt : room.attached = [] := (h.2.2.1 _ (alookup_mem hlk)).1
    have hspk : room.speaking = [] := (h.2.2.1 _ (alookup_mem hlk)).2
    have hvols : vols = [] := by
      cases vols with
      | nil => rfl
      | cons v t => simp [hatt] at hall
    subst hvols
    refine ⟨h.1, nodup_keys_aset h.2.1, ?_, ?_⟩
    · refine invRooms_aset h.2.2.1 hatt ?_
      simp [hspk]
    · refine inv3_aset_room h.2.2.2 ?_
      intro pe hpe
      exact h.2.2.2 _ (alookup_mem hlk) pe hpe
  · exact h

/-- A silence tick preserves the invariant. -/
theorem inv_silenceStep {st : ServerState} (rk : String) (h : Inv st) :
    Inv (silenceStep st rk).1 := by
  unfold silenceStep
  rcases hlk : alookup rk st.rooms with _ | room
  · simp only [hlk]
    exact h
  simp only [hlk]
  refine ⟨h.1, nodup_keys_aset h.2.1, ?_, ?_⟩
  · exact invRooms_aset h.2.2.1 (h.2.2.1 _ (alookup_mem hlk)).1 rfl
  · refine inv3_aset_room h.2.2.2 ?_
    intro pe hpe
    exact h.2.2.2 _ (alookup_mem hlk) pe hpe

/-- The boot state satisfies the invariant. -/
theorem inv_initState : Inv initState :=
  ⟨⟨fun e he => absurd he (by simp [initState]), by simp [initState]⟩,
   by simp [initState], fun e he => absurd he (by simp [initState]),
   fun e he pe hpe => absurd he (by simp [initState])⟩

/-- Every server step preserves the invariant. -/
theorem inv_step {a b : ServerState} (h : Inv a) (hs : Step a b) : Inv b := by
  cases hs with
  | message canC conn msg st => exact inv_handleMessage h
  | wsClose wsId st => exact inv_wsCloseStep _ h
  | grace sid st => exact inv_graceStep _ h
  | dtls tid st => exact inv_dtlsCloseStep _ h
  | volumes rk vols st => exact inv_volumesStep _ _ h
  | silence rk st => exact inv_silenceStep _ h

/-- Every reachable state satisfies the invariant. -/
theorem inv_reachable {st : ServerState} (h : Reachable st) : Inv st := by
  induction h with
  | refl => exact inv_initState
  | tail hsteps hstep ih => exact inv_step ih hstep

theorem digVal_digChar {d : Nat} (h : d < 10) : digVal (digChar d) = d := by
  interval_cases d <;> decide

theorem digChar_ne_dash {d : Nat} (h : d < 10) : digChar d ≠ '-' := by
  interval_cases d <;> decide

theorem b64uDecAux_digits (ds : List Nat) (hds : ∀ d ∈ ds, d < 10)
    (rest : List Char) (acc : List Nat) :
    b64uDecAux (ds.map digChar ++ '-' :: rest) acc
      = Nat.ofDigits 10 (acc ++ ds) :: b64uDecAux rest [] := by
  induction ds generalizing acc with
  | nil => simp [b64uDecAux]
  | cons d t ih =>
    have hd : d < 10 := hds d (by simp)
    have ht : ∀ x ∈ t, x < 10 := fun x hx => hds x (by simp [hx])
    simp only [List.map_cons, List.cons_append, b64uDecAux,
      if_neg (digChar_ne_dash hd), List.append_eq]
    rw [digVal_digChar hd]
    simpa [List.append_assoc] using ih ht (acc ++ [d])

theorem b64uDec_enc (l : List Nat) : b64uDec (b64uEnc l) = l := by
  induction l with
  | nil => rfl
  | cons n t ih =>
    have hds : ∀ d ∈ Nat.digits 10 n, d < 10 :=
      fun d hd => Nat.digits_lt_base (by norm_num) hd
    simp only [b64uEnc, b64uDec] at ih ⊢
    rw [b64uDecAux_digits _ hds]
    simp [Nat.ofDigits_digits, ih]

theorem dot_not_mem_b64uEnc (l : List Nat) : '.' ∉ b64uEnc l := by
  induction l with
  | nil => simp [b64uEnc]
  | cons n t ih =>
    simp only [b64uEnc, List.mem_append, List.mem_cons, List.mem_map]
    rintro (⟨d, hd, hch⟩ | h | h)
    · have hlt : d < 10 := Nat.digits_lt_base (by norm_num) hd
      have hne : digChar d ≠ '.' := by interval_cases d <;> decide
      exact hne hch
    · exact absurd h (by decide)
    · exact ih h

theorem readStr_enc (s : String) (rest : List Nat) :
    readStr (encStr s ++ rest) = some (s, rest) := by
  simp only [encStr, readStr, List.cons_append]
  rw [if_pos (by simp)]
  have htake : ((s.data.map Char.toNat ++ rest).take s.data.length)
      = s.data.map Char.toNat := by
    rw [← List.length_map s.data Char.toNat]
    exact List.take_left _ _
  have hdrop : ((s.data.map Char.toNat ++ rest).drop s.data.length) = rest := by
    rw [← List.length_map s.data Char.toNat]
    exact List.drop_left _ _
  rw [htake, hdrop]
  simp only [List.map_map]
  have hmap : ∀ c ∈ s.data, (Char.ofNat ∘ Char.toNat) c = id c :=
    fun c _ => Char.ofNat_toNat c
  rw [List.map_congr_left hmap, List.map_id]

theorem readOptStr_enc (o : Option String) (rest : List Nat) :
    readOptStr (encOptStr o ++ rest) = some (o, rest) := by
  cases o with
  | none => simp [encOptStr, readOptStr]
  | some s => simp [encOptStr, readOptStr, readStr_enc]

theorem jsonParse_stringify (p : TokenPayload) :
    jsonParsePayload (jsonStringifyPayload p) = some p := by
  cases p
  simp [jsonStringifyPayload, jsonParsePayload, List.append_assoc,
    readStr_enc, readOptStr_enc]

theorem jsSplitDot_no_dot {l : List Char} (h : '.' ∉ l) : jsSplitDot l = [l] := by
  induction l with
  | nil => rfl
  | cons c rest ih =>
    have hc : c ≠ '.' := fun e => h (by simp [e])
    have hr : '.' ∉ rest := fun e => h (by simp [e])
    simp [jsSplitDot, hc, ih hr]

theorem jsSplitDot_append {a : List Char} (b : List Char) (h : '.' ∉ a) :
    jsSplitDot (a ++ '.' :: b) = a :: jsSplitDot b := by
  induction a with
  | nil => simp [jsSplitDot]
  | cons c rest ih =>
    have hc : c ≠ '.' := fun e => h (by simp [e])
    have hr : '.' ∉ rest := fun e => h (by simp [e])
    simp [jsSplitDot, hc, ih hr]

theorem alookup_filter_none {α : Type} {k : String} {l : List (String × α)}
    (pred : String × α → Bool) (h : alookup k l = none) :
    alookup k (l.filter pred) = none := by
  induction l with
  | nil => simp [alookup]
  | cons hd t ih =>
    by_cases hk : hd.1 = k
    · simp [alookup, hk] at h
    · simp only [alookup, hk, if_false] at h
      by_cases hp : pred hd
      · simp [List.filter, hp, alookup, hk, ih h]
      · simp [List.filter, hp, ih h]

theorem alookup_cleanup_none {k : String} {used : UsedJti} (now : Nat)
    (h : alookup k used = none) :
    alookup k (cleanupUsedJti now used) = none :=
  alookup_filter_none _ h

theorem alookup_cleanup_some {k : String} {e : Nat} {used : UsedJti} {now : Nat}
    (h : alookup k used = some e) (hfut : now < e) :
    alookup k (cleanupUsedJti now used) = some e := by
  induction used with
  | nil => simp [alookup] at h
  | cons hd t ih =>
    by_cases hk : hd.1 = k
    · simp [alookup, hk] at h
      subst h
      simp [cleanupUsedJti, List.filter, hfut, alookup, hk]
    · simp only [alookup, hk, if_false] at h
      by_cases hp : now < hd.2
      · simpa [cleanupUsedJti, List.filter, hp, alookup, hk] using ih h
      · simpa [cleanupUsedJti, List.filter, hp] using ih h

/-- The shape of verification applied to a freshly signed token: the
segments split back, the recomputed digest matches, and the payload
parses back to the original; what remains is the field, time, binding and
jti logic on the original payload. -/
theorem verifyToken_signToken (p : TokenPayload) (opts : VerifyOpts) (now : Nat)
    (used : UsedJti) :
    verifyToken (signToken p) opts now used = verifyChecks p opts now used := by
  unfold signToken verifyToken
  rw [jsSplitDot_append _ (dot_not_mem_b64uEnc _),
    jsSplitDot_no_dot (dot_not_mem_b64uEnc _)]
  simp [b64uDec_enc, jsonParse_stringify]

/-- Exhaustive outcomes of the check chain: some error with the table
untouched, acceptance with the jti recorded, replay rejection after
cleanup, or (non-consuming) acceptance after cleanup. -/
theorem verifyChecks_cases (p : TokenPayload) (opts : VerifyOpts) (now : Nat)
    (used : UsedJti) :
    (∃ e, verifyChecks p opts now used = (used, Except.error e))
    ∨ (alookup p.jti (cleanupUsedJti now used) = none ∧ opts.consumeJti = true
        ∧ verifyChecks p opts now used
            = (aset p.jti p.exp (cleanupUsedJti now used), Except.ok p)
        ∧ now < p.exp)
    ∨ (verifyChecks p opts now used = (cleanupUsedJti now used, Except.error "replayed"))
    ∨ (opts.consumeJti = false
        ∧ verifyChecks p opts now used = (cleanupUsedJti now used, Except.ok p)
        ∧ now < p.exp) := by
  by_cases h1 : p.roomId = ""
  · exact Or.inl ⟨"no_roomId", by simp only [verifyChecks]; rw [if_pos h1]⟩
  by_cases h2 : p.peerId = ""
  · exact Or.inl ⟨"no_peerId", by simp only [verifyChecks]; rw [if_neg h1, if_pos h2]⟩
  by_cases h3 : p.jti = ""
  · exact Or.inl ⟨"no_jti", by
      simp only [verifyChecks]; rw [if_neg h1, if_neg h2, if_pos h3]⟩
  by_cases h4 : p.iat = 0
  · exact Or.inl ⟨"no_iat", by
      simp only [verifyChecks]; rw [if_neg h1, if_neg h2, if_neg h3, if_pos h4]⟩
  by_cases h5 : p.exp = 0
  · exact Or.inl ⟨"no_exp", by
      simp only [verifyChecks]
      rw [if_neg h1, if_neg h2, if_neg h3, if_neg h4, if_pos h5]⟩
  by_cases h6 : p.exp ≤ now
  · exact Or.inl ⟨"expired", by
      simp only [verifyChecks]
      rw [if_neg h1, if_neg h2, if_neg h3, if_neg h4, if_neg h5, if_pos h6]⟩
  by_cases h7 : p.iat > now + 30
  · exact Or.inl ⟨"iat_in_future", by
      simp only [verifyChecks]
      rw [if_neg h1, if_neg h2, if_neg h3, if_neg h4, if_neg h5, if_neg h6, if_pos h7]⟩
  by_cases h8 : expectedMismatch opts.expectedRoomId p.roomId = true
  · exact Or.inl ⟨"roomId_mismatch", by
      simp only [verifyChecks]
      rw [if_neg h1, if_neg h2, if_neg h3, if_neg h4, if_neg h5, if_neg h6, if_neg h7,
        if_pos h8]⟩
  by_cases h9 : expectedMismatch opts.expectedPeerId p.peerId = true
  · exact Or.inl ⟨"peerId_mismatch", by
      simp only [verifyChecks]
      rw [if_neg h1, if_neg h2, if_neg h3, if_neg h4, if_neg h5, if_neg h6, if_neg h7,
        if_neg h8, if_pos h9]⟩
  by_cases h10 : sessionMismatch opts.expectedSessionId p.sessionId = true
  · exact Or.inl ⟨"sessionId_mismatch", by
      simp only [verifyChecks]
      rw [if_neg h1, if_neg h2, if_neg h3, if_neg h4, if_neg h5, if_neg h6, if_neg h7,
        if_neg h8, if_neg h9, if_pos h10]⟩
  have hrest : verifyChecks p opts now used =
      (if opts.consumeJti then
        if (alookup p.jti (cleanupUsedJti now used)).isSome then
          (cleanupUsedJti now used, .error "replayed")
        else (aset p.jti p.exp (cleanupUsedJti now used), .ok p)
      else (cleanupUsedJti now used, .ok p)) := by
    simp only [verifyChecks]
    rw [if_neg h1, if_neg h2, if_neg h3, if_neg h4, if_neg h5, if_neg h6, if_neg h7,
      if_neg h8, if_neg h9, if_neg h10]
  have hexp : now < p.exp := Nat.lt_of_not_le h6
  by_cases hc : opts.consumeJti = true
  · by_cases hs : (alookup p.jti (cleanupUsedJti now used)).isSome = true
    · refine Or.inr (Or.inr (Or.inl ?_))
      rw [hrest, if_pos hc, if_pos hs]
    · refine Or.inr (Or.inl ⟨Option.not_isSome_iff_eq_none.mp (by simpa using hs), hc,
        ?_, hexp⟩)
      rw [hrest, if_pos hc, if_neg hs]
  · refine Or.inr (Or.inr (Or.inr ⟨Bool.not_eq_true _ ▸ hc, ?_, hexp⟩))
    rw [hrest, if_neg hc]

/-- The possible jti-table states the check chain can leave behind. -/
theorem verifyChecks_state_cases (p : TokenPayload) (opts : VerifyOpts) (now : Nat)
    (used : UsedJti) :
    (verifyChecks p opts now used).1 = used
    ∨ (verifyChecks p opts now used).1 = cleanupUsedJti now used
    ∨ ∃ pj pe, alookup pj (cleanupUsedJti now used) = none
        ∧ (verifyChecks p opts now used).1 = aset pj pe (cleanupUsedJti now used) := by
  rcases verifyChecks_cases p opts now used with ⟨e, he⟩ | ⟨hn, _, he, _⟩ | he | ⟨_, he, _⟩
  · left; rw [he]
  · right; right; exact ⟨p.jti, p.exp, hn, by rw [he]⟩
  · right; left; rw [he]
  · right; left; rw [he]

/-- The possible jti-table states verification can leave behind: untouched,
cleaned up, or cleaned up with one fresh jti recorded. -/
theorem verifyToken_state_cases (t : List Char) (opts : VerifyOpts) (now : Nat)
    (used : UsedJti) :
    (verifyToken t opts now used).1 = used
    ∨ (verifyToken t opts now used).1 = cleanupUsedJti now used
    ∨ ∃ pj pe, alookup pj (cleanupUsedJti now used) = none
        ∧ (verifyToken t opts now used).1 = aset pj pe (cleanupUsedJti now used) := by
  unfold verifyToken
  repeat' split
  all_goals first
    | (left; rfl)
    | apply verifyChecks_state_cases

/-- The check chain accepts only the payload it was given, and only with
`exp` strictly in the future. -/
theorem verifyChecks_ok {p q : TokenPayload} {opts : VerifyOpts} {now : Nat}
    {used u' : UsedJti}
    (h : verifyChecks p opts now used = (u', Except.ok q)) :
    q = p ∧ now < p.exp := by
  rcases verifyChecks_cases p opts now used with ⟨e, he⟩ | ⟨_, _, he, hx⟩ |
    he | ⟨_, he, hx⟩
  · rw [he] at h
    exact absurd h (by simp)
  · rw [he] at h
    simp only [Prod.mk.injEq, Except.ok.injEq] at h
    exact ⟨h.2.symm, hx⟩
  · rw [he] at h
    exact absurd h (by simp)
  · rw [he] at h
    simp only [Prod.mk.injEq, Except.ok.injEq] at h
    exact ⟨h.2.symm, hx⟩

/-- A signed token is never the empty string. -/
theorem signToken_ne_nil (p : TokenPayload) : signToken p ≠ [] := by
  simp [signToken]

/-! ## Output-shape lemmas for the failure-semantics claim. -/

theorem filter_resp_nil {l : List Out} (h : ∀ o ∈ l, isRespOut o = false) :
    l.filter isRespOut = [] := by
  induction l with
  | nil => rfl
  | cons a t ih =>
    rw [List.filter_cons]
    simp only [h a (List.mem_cons_self a t), Bool.false_eq_true, if_false]
    exact ih fun o ho => h o (List.mem_cons_of_mem _ ho)

/-- Every broadcast output is a plain send of the broadcast message. -/
theorem mem_broadcastRoom {st : ServerState} {room : RoomRec} {m : OutMsg}
    {ex : Option String} {o : Out} (h : o ∈ broadcastRoom st room m ex) :
    ∃ w, o = Out.sendTo w m := by
  unfold broadcastRoom concatMap at h
  rcases List.mem_flatten.mp h with ⟨l, hl, hol⟩
  rcases List.mem_map.mp hl with ⟨e, he, hfe⟩
  rw [← hfe] at hol
  by_cases hex : ex = some e.1
  · rw [if_pos hex] at hol
    exact absurd hol (by simp)
  · rw [if_neg hex] at hol
    rcases hc : alookup e.2 st.sessions with _ | cl
    · simp only [hc] at hol
      exact absurd hol (by simp)
    · simp only [hc] at hol
      rw [List.mem_singleton] at hol
      exact ⟨cl.wsId, hol⟩

/-- `peerJoined` broadcasts are benign. -/
theorem broadcast_peerJoined_outs {st : ServerState} {room : RoomRec} {pid : String}
    {ex : Option String} {w : Nat} :
    ∀ o ∈ broadcastRoom st room (.peerJoined pid) ex,
      isRespOut o = false ∧ isClose1008 o = false ∧ closesWs w o = false := by
  intro o ho
  rcases mem_broadcastRoom ho with ⟨w2, hw⟩
  subst hw
  exact ⟨rfl, rfl, rfl⟩

/-- The outputs of `resetPeerMedia` are `producerSpeaking` broadcasts. -/
theorem resetPeerMedia_outs {st : ServerState} {c : Client} {o : Out}
    (h : o ∈ (resetPeerMedia st c).2.1) :
    isRespOut o = false ∧ isClose1008 o = false ∧ ∀ w, closesWs w o = false := by
  unfold resetPeerMedia at h
  rcases hcr : c.roomId with _ | rid
  · simp only [hcr] at h
    exact absurd h (by simp)
  simp only [hcr] at h
  rcases hlk : alookup rid st.rooms with _ | room
  · simp only [hlk] at h
    exact absurd h (by simp)
  simp only [hlk] at h
  unfold concatMap at h
  rcases List.mem_flatten.mp h with ⟨l, hl, hol⟩
  rcases List.mem_map.mp hl with ⟨pid, hpid, hfe⟩
  rw [← hfe] at hol
  split at hol
  · rcases mem_broadcastRoom hol with ⟨w2, hw⟩
    subst hw
    exact ⟨rfl, rfl, fun w3 => rfl⟩
  · exact absurd hol (by simp)

/-- The outputs of a successful `adoptPeer`: speak-stop broadcasts plus at
most one non-1008 close of the replaced (different) socket. -/
theorem adoptPeer_outs {st : ServerState} {conn : ConnInfo} {peer : Client}
    {peerId : String} {st1 : ServerState} {outs : List Out} {c' : Client}
    (hok : adoptPeer st conn peer peerId = Except.ok (st1, outs, c')) :
    ∀ o ∈ outs, isRespOut o = false ∧ isClose1008 o = false
      ∧ closesWs conn.wsId o = false := by
  unfold adoptPeer at hok
  split at hok
  · exact absurd hok (by simp)
  · simp only [Except.ok.injEq, Prod.mk.injEq] at hok
    obtain ⟨-, ho, -⟩ := hok
    intro o hmem
    rw [← ho] at hmem
    rcases List.mem_append.mp hmem with hm | hm
    · rcases resetPeerMedia_outs hm with ⟨h1, h2, h3⟩
      exact ⟨h1, h2, h3 conn.wsId⟩
    · split at hm
      · rename_i hww
        rw [List.mem_singleton] at hm
        subst hm
        refine ⟨rfl, rfl, ?_⟩
        simpa [closesWs] using hww
      · exact absurd hm (by simp)

/-- A lone failure response filters to itself and closes nothing. -/
theorem fail_outs {w rid : Nat} {e : String} :
    (([failResponse w rid e]).filter isRespOut
      = [Out.sendTo w (.response rid false (.obj [("error", e)]))])
    ∧ ∀ o ∈ [failResponse w rid e], isClose1008 o = false ∧ closesWs w o = false := by
  constructor
  · rfl
  · intro o ho
    rw [List.mem_singleton] at ho
    subst ho
    exact ⟨rfl, rfl⟩

/-- Benign prefix, response + welcome, benign suffix. -/
theorem outs_shape {A B : List Out} {w rid : Nat} {b : Bool} {d : RData}
    {sid pid : String} {pl : List String} {prods : List (String × String × MKind)}
    (hA : ∀ o ∈ A, isRespOut o = false ∧ isClose1008 o = false ∧ closesWs w o = false)
    (hB : ∀ o ∈ B, isRespOut o = false ∧ isClose1008 o = false ∧ closesWs w o = false) :
    ((A ++ [Out.sendTo w (.response rid b d),
        Out.sendTo w (.welcomeFull sid pid pl prods)] ++ B).filter isRespOut
      = [Out.sendTo w (.response rid b d)])
    ∧ ∀ o ∈ A ++ [Out.sendTo w (.response rid b d),
        Out.sendTo w (.welcomeFull sid pid pl prods)] ++ B,
        isClose1008 o = false ∧ closesWs w o = false := by
  have hm2 : isRespOut (Out.sendTo w (OutMsg.welcomeFull sid pid pl prods))
    = false := rfl
  constructor
  · have hm2n : ¬ (isRespOut (Out.sendTo w
        (OutMsg.welcomeFull sid pid pl prods)) = true) := by simp [hm2]
    have hr : isRespOut (Out.sendTo w (OutMsg.response rid b d)) = true := rfl
    rw [List.filter_append, List.filter_append,
      filter_resp_nil (fun o ho => (hA o ho).1),
      filter_resp_nil (fun o ho => (hB o ho).1),
      List.filter_cons, List.filter_cons, if_pos hr, if_neg hm2n]
    rfl
  · intro o ho
    rcases List.mem_append.mp ho with ho1 | ho2
    · rcases List.mem_append.mp ho1 with hoA | homid
      · exact ⟨(hA o hoA).2.1, (hA o hoA).2.2⟩
      · simp only [List.mem_cons, List.mem_singleton] at homid
        rcases homid with hh | hh | hh
        · subst hh
          exact ⟨rfl, rfl⟩
        · subst hh
          exact ⟨rfl, rfl⟩
        · exact absurd hh (by simp)
    · exact ⟨(hB o ho2).2.1, (hB o ho2).2.2⟩

/-- Benign prefixes, then response + welcome at the tail. -/
theorem outs_shape2 {A B : List Out} {w rid : Nat} {b : Bool} {d : RData}
    {sid pid : String} {pl : List String} {prods : List (String × String × MKind)}
    (hA : ∀ o ∈ A, isRespOut o = false ∧ isClose1008 o = false ∧ closesWs w o = false)
    (hB : ∀ o ∈ B, isRespOut o = false ∧ isClose1008 o = false ∧ closesWs w o = false) :
    ((A ++ B ++ [Out.sendTo w (.response rid b d),
        Out.sendTo w (.welcomeFull sid pid pl prods)]).filter isRespOut
      = [Out.sendTo w (.response rid b d)])
    ∧ ∀ o ∈ A ++ B ++ [Out.sendTo w (.response rid b d),
        Out.sendTo w (.welcomeFull sid pid pl prods)],
        isClose1008 o = false ∧ closesWs w o = false := by
  have hm2 : isRespOut (Out.sendTo w (OutMsg.welcomeFull sid pid pl prods))
    = false := rfl
  constructor
  · have hm2n : ¬ (isRespOut (Out.sendTo w
        (OutMsg.welcomeFull sid pid pl prods)) = true) := by simp [hm2]
    have hr : isRespOut (Out.sendTo w (OutMsg.response rid b d)) = true := rfl
    rw [List.filter_append, List.filter_append,
      filter_resp_nil (fun o ho => (hA o ho).1),
      filter_resp_nil (fun o ho => (hB o ho).1),
      List.filter_cons, List.filter_cons, if_pos hr, if_neg hm2n]
    rfl
  · intro o ho
    rcases List.mem_append.mp ho with ho1 | ho2
    · rcases List.mem_append.mp ho1 with hoA | hoB
      · exact ⟨(hA o hoA).2.1, (hA o hoA).2.2⟩
      · exact ⟨(hB o hoB).2.1, (hB o hoB).2.2⟩
    · simp only [List.mem_cons, List.mem_singleton] at ho2
      rcases ho2 with hh | hh | hh
      · subst hh
        exact ⟨rfl, rfl⟩
      · subst hh
        exact ⟨rfl, rfl⟩
      · exact absurd hh (by simp)

/-- Benign prefix, then a failure response. -/
theorem outs_shape3 {A : List Out} {w rid : Nat} {e : String}
    (hA : ∀ o ∈ A, isRespOut o = false ∧ isClose1008 o = false ∧ closesWs w o = false) :
    ((A ++ [failResponse w rid e]).filter isRespOut
      = [Out.sendTo w (.response rid false (.obj [("error", e)]))])
    ∧ ∀ o ∈ A ++ [failResponse w rid e],
        isClose1008 o = false ∧ closesWs w o = false := by
  constructor
  · rw [List.filter_append, filter_resp_nil (fun o ho => (hA o ho).1)]
    rfl
  · intro o ho
    rcases List.mem_append.mp ho with ho1 | ho2
    · exact ⟨(hA o ho1).2.1, (hA o ho1).2.2⟩
    · rw [List.mem_singleton] at ho2
      subst ho2
      exact ⟨rfl, rfl⟩

/-- `resumeSession` replies with exactly one response envelope and closes
neither the requesting connection nor anything with code 1008. -/
theorem handleResume_outs {st : ServerState} {conn : ConnInfo} {msg : ClientMsg} :
    (∃ b d, ((handleResume st conn msg).2.filter isRespOut)
        = [Out.sendTo conn.wsId (.response msg.requestId b d)])
    ∧ ∀ o ∈ (handleResume st conn msg).2,
        isClose1008 o = false ∧ closesWs conn.wsId o = false := by
  unfold handleResume
  rcases h1 : requireRoomIdMatch conn.tokenRoomId msg.payload.roomId with e | roomId
  · simp only [h1]
    exact ⟨⟨false, _, fail_outs.1⟩, fail_outs.2⟩
  simp only [h1]
  rcases h2 : requireBoundIdentity conn.tokenPeerId conn.tokenSessionId
      msg.payload.sessionId st with e | ⟨peerId, sessionId, st0⟩
  · simp only [h2]
    exact ⟨⟨false, _, fail_outs.1⟩, fail_outs.2⟩
  simp only [h2]
  rcases h3 : alookup sessionId st0.sessions with _ | peer
  · simp only [h3]
    rw [if_neg (by simp)]
    constructor
    · exact ⟨true, _, (outs_shape2 (fun o ho => absurd ho (by simp))
        broadcast_peerJoined_outs).1⟩
    · exact (outs_shape2 (fun o ho => absurd ho (by simp))
        broadcast_peerJoined_outs).2
  · simp only [h3]
    rcases h4 : adoptPeer st0 conn peer peerId with e | ⟨st1, outs1, c'⟩
    · simp only [h4]
      exact ⟨⟨false, _, fail_outs.1⟩, fail_outs.2⟩
    simp only [h4]
    by_cases h5 : c'.roomId.isSome ∧ c'.roomId ≠ some roomId
    · rw [if_pos h5]
      exact ⟨⟨false, _, (outs_shape3 (adoptPeer_outs h4)).1⟩,
        (outs_shape3 (adoptPeer_outs h4)).2⟩
    · rw [if_neg h5]
      rcases h6 : c'.roomId with _ | rid0
      · simp only [h6]
        constructor
        · exact ⟨true, _, (outs_shape2 (adoptPeer_outs h4) broadcast_peerJoined_outs).1⟩
        · exact (outs_shape2 (adoptPeer_outs h4) broadcast_peerJoined_outs).2
      · simp only [h6]
        constructor
        · exact ⟨true, _, (outs_shape2 (adoptPeer_outs h4)
            (fun o ho => absurd ho (by simp))).1⟩
        · exact (outs_shape2 (adoptPeer_outs h4)
            (fun o ho => absurd ho (by simp))).2

/-- `join` replies with exactly one response envelope and closes neither
the requesting connection nor anything with code 1008. -/
theorem handleJoin_outs {st : ServerState} {conn : ConnInfo} {msg : ClientMsg} :
    (∃ b d, ((handleJoin st conn msg).2.filter isRespOut)
        = [Out.sendTo conn.wsId (.response msg.requestId b d)])
    ∧ ∀ o ∈ (handleJoin st conn msg).2,
        isClose1008 o = false ∧ closesWs conn.wsId o = false := by
  unfold handleJoin
  rcases h1 : requireRoomIdMatch conn.tokenRoomId msg.payload.roomId with e | roomId
  · simp only [h1]
    exact ⟨⟨false, _, fail_outs.1⟩, fail_outs.2⟩
  simp only [h1]
  rcases h2 : requireBoundIdentity conn.tokenPeerId conn.tokenSessionId
      msg.payload.sessionId st with e | ⟨peerId, sessionId, st0⟩
  · simp only [h2]
    exact ⟨⟨false, _, fail_outs.1⟩, fail_outs.2⟩
  simp only [h2]
  rcases h3 : alookup sessionId st0.sessions with _ | peer
  · simp only [h3]
    rw [if_neg (by simp)]
    constructor
    · exact ⟨true, _, (outs_shape (fun o ho => absurd ho (by simp))
        broadcast_peerJoined_outs).1⟩
    · exact (outs_shape (fun o ho => absurd ho (by simp))
        broadcast_peerJoined_outs).2
  · simp only [h3]
    rcases h4 : adoptPeer st0 conn peer peerId with e | ⟨st1, outs1, c'⟩
    · simp only [h4]
      exact ⟨⟨false, _, fail_outs.1⟩, fail_outs.2⟩
    simp only [h4]
    by_cases h5 : c'.roomId.isSome ∧ c'.roomId ≠ some roomId
    · rw [if_pos h5]
      exact ⟨⟨false, _, (outs_shape3 (adoptPeer_outs h4)).1⟩,
        (outs_shape3 (adoptPeer_outs h4)).2⟩
    · rw [if_neg h5]
      constructor
      · exact ⟨true, _, (outs_shape (adoptPeer_outs h4) broadcast_peerJoined_outs).1⟩
      · exact (outs_shape (adoptPeer_outs h4) broadcast_peerJoined_outs).2

/-- `listProducers` replies with exactly one response envelope. -/
theorem handleList_outs {st : ServerState} {conn : ConnInfo} {msg : ClientMsg} :
    ∃ b d, (handleList st conn msg).2
      = [Out.sendTo conn.wsId (.response msg.requestId b d)] := by
  unfold handleList
  repeat' split
  all_goals first
    | exact ⟨false, _, rfl⟩
    | exact ⟨true, _, rfl⟩

/-! ## Claim theorems -/

/-- C4: for every payload with string `roomId`, `peerId`, `jti` and nonzero
`iat`, `exp` such that `exp > now`, `iat ≤ now + 30` and the `jti` not
already consumed, `verifyToken (signToken p)` at that `now` (with the
gate's `consumeJti` option) succeeds and returns a payload equal
field-for-field to the original, recording the `jti` with its `exp`. -/
theorem claim_token_roundtrip (p : TokenPayload) (now : Nat) (used : UsedJti)
    (hroom : p.roomId ≠ "") (hpeer : p.peerId ≠ "") (hjti : p.jti ≠ "")
    (hiat0 : p.iat ≠ 0) (hexp0 : p.exp ≠ 0)
    (hexp : now < p.exp) (hiat : p.iat ≤ now + 30)
    (hfresh : alookup p.jti used = none) :
    verifyToken (signToken p) consumeOpts now used
      = (aset p.jti p.exp (cleanupUsedJti now used), Except.ok p) := by
  rw [verifyToken_signToken]
  unfold verifyChecks
  rw [if_neg hroom, if_neg hpeer, if_neg hjti, if_neg hiat0, if_neg hexp0,
    if_neg (Nat.not_le.mpr hexp), if_neg (Nat.not_lt.mpr hiat)]
  simp [consumeOpts, expectedMismatch, sessionMismatch,
    alookup_cleanup_none now hfresh]

/-- Witness for C4 at a concrete payload and clock. -/
theorem claim_token_roundtrip_witness :
    verifyToken (signToken ⟨"r1", "p1", some "s1", "j1", 5, 100⟩) consumeOpts 50 []
      = (aset "j1" 100 (cleanupUsedJti 50 []),
          Except.ok ⟨"r1", "p1", some "s1", "j1", 5, 100⟩) :=
  claim_token_roundtrip ⟨"r1", "p1", some "s1", "j1", 5, 100⟩ 50 []
    (by decide) (by decide) (by decide) (by decide) (by decide)
    (by decide) (by decide) rfl

/-- C6: time boundaries of verification.  An otherwise-valid token with
`iat = now + 30` is accepted and with `iat = now + 31` rejected with
`iat_in_future`; `exp = now` is rejected with `expired` (the `expired`
check precedes the `iat` check); and no verification whatsoever accepts a
token whose `exp` is not strictly greater than `now`. -/
theorem claim_time_boundaries :
    (∀ (p : TokenPayload) (now : Nat) (used : UsedJti),
      p.roomId ≠ "" → p.peerId ≠ "" → p.jti ≠ "" → p.iat = now + 30 →
      now < p.exp → alookup p.jti used = none →
      verifyToken (signToken p) consumeOpts now used
        = (aset p.jti p.exp (cleanupUsedJti now used), Except.ok p))
    ∧ (∀ (p : TokenPayload) (now : Nat) (used : UsedJti),
      p.roomId ≠ "" → p.peerId ≠ "" → p.jti ≠ "" → p.iat = now + 31 →
      now < p.exp →
      verifyToken (signToken p) consumeOpts now used
        = (used, Except.error "iat_in_future"))
    ∧ (∀ (p : TokenPayload) (now : Nat) (used : UsedJti),
      p.roomId ≠ "" → p.peerId ≠ "" → p.jti ≠ "" → p.iat ≠ 0 → p.exp = now →
      p.exp ≠ 0 →
      verifyToken (signToken p) consumeOpts now used
        = (used, Except.error "expired"))
    ∧ (∀ (t : List Char) (opts : VerifyOpts) (now : Nat) (used u' : UsedJti)
        (p : TokenPayload),
      verifyToken t opts now used = (u', Except.ok p) → now < p.exp) := by
  refine ⟨?_, ?_, ?_, ?_⟩
  · intro p now used hroom hpeer hjti hiat hexp hfresh
    exact claim_token_roundtrip p now used hroom hpeer hjti (by omega)
      (by omega) hexp (by omega) hfresh
  · intro p now used hroom hpeer hjti hiat hexp
    rw [verifyToken_signToken]
    unfold verifyChecks
    rw [if_neg hroom, if_neg hpeer, if_neg hjti, if_neg (by omega),
      if_neg (by omega), if_neg (Nat.not_le.mpr hexp), if_pos (by omega)]
  · intro p now used hroom hpeer hjti hiat0 hexp hexp0
    rw [verifyToken_signToken]
    unfold verifyChecks
    rw [if_neg hroom, if_neg hpeer, if_neg hjti, if_neg hiat0, if_neg hexp0,
      if_pos (by omega)]
  · intro t opts now used u' p h
    unfold verifyToken at h
    repeat' split at h
    all_goals try exact absurd h (by simp)
    have hh := verifyChecks_ok h
    rw [hh.1]
    exact hh.2

/-- Witness for C6 at concrete payloads and clocks. -/
theorem claim_time_boundaries_witness :
    verifyToken (signToken ⟨"r1", "p1", none, "j1", 80, 100⟩) consumeOpts 50 []
      = (aset "j1" 100 (cleanupUsedJti 50 []),
          Except.ok ⟨"r1", "p1", none, "j1", 80, 100⟩)
    ∧ verifyToken (signToken ⟨"r1", "p1", none, "j1", 81, 100⟩) consumeOpts 50 []
      = ([], Except.error "iat_in_future")
    ∧ verifyToken (signToken ⟨"r1", "p1", none, "j1", 10, 50⟩) consumeOpts 50 []
      = ([], Except.error "expired") :=
  ⟨claim_time_boundaries.1 ⟨"r1", "p1", none, "j1", 80, 100⟩ 50 []
      (by decide) (by decide) (by decide) rfl (by decide) rfl,
   claim_time_boundaries.2.1 ⟨"r1", "p1", none, "j1", 81, 100⟩ 50 []
      (by decide) (by decide) (by decide) rfl (by decide),
   claim_time_boundaries.2.2.1 ⟨"r1", "p1", none, "j1", 10, 50⟩ 50 []
      (by decide) (by decide) (by decide) (by decide) rfl (by decide)⟩

/-- C5: single-use jti.  A recorded jti whose eviction time lies in the
future survives any intermediate verification run at a clock before that
time; a consuming verification presenting the same jti then fails with
`replayed` even when every other field of the (freshly signed) token is
valid; and the connection gate closes such a connection with code 1008
and a reason containing the failure kind. -/
theorem claim_jti_single_use :
    (∀ (t : List Char) (opts : VerifyOpts) (now : Nat) (used : UsedJti)
        (j : String) (e : Nat),
      alookup j used = some e → now < e →
      alookup j (verifyToken t opts now used).1 = some e)
    ∧ (∀ (p : TokenPayload) (now : Nat) (used : UsedJti) (e : Nat),
      alookup p.jti used = some e → now < e →
      p.roomId ≠ "" → p.peerId ≠ "" → p.jti ≠ "" → p.iat ≠ 0 → p.exp ≠ 0 →
      now < p.exp → p.iat ≤ now + 30 →
      verifyToken (signToken p) consumeOpts now used
        = (cleanupUsedJti now used, Except.error "replayed"))
    ∧ (∀ (p : TokenPayload) (now : Nat) (used : UsedJti) (e : Nat) (wsId : Nat),
      alookup p.jti used = some e → now < e →
      p.roomId ≠ "" → p.peerId ≠ "" → p.jti ≠ "" → p.iat ≠ 0 → p.exp ≠ 0 →
      now < p.exp → p.iat ≤ now + 30 →
      connectionGate (signToken p) now used wsId
        = (cleanupUsedJti now used,
           [Out.closeWs wsId (some 1008) "invalid token: replayed"], none)
      ∧ ∃ a b : String, "invalid token: replayed" = a ++ "replayed" ++ b) := by
  have hrep : ∀ (p : TokenPayload) (now : Nat) (used : UsedJti) (e : Nat),
      alookup p.jti used = some e → now < e →
      p.roomId ≠ "" → p.peerId ≠ "" → p.jti ≠ "" → p.iat ≠ 0 → p.exp ≠ 0 →
      now < p.exp → p.iat ≤ now + 30 →
      verifyToken (signToken p) consumeOpts now used
        = (cleanupUsedJti now used, Except.error "replayed") := by
    intro p now used e hj hfut hroom hpeer hjti hiat0 hexp0 hexp hiat
    rw [verifyToken_signToken]
    unfold verifyChecks
    rw [if_neg hroom, if_neg hpeer, if_neg hjti, if_neg hiat0, if_neg hexp0,
      if_neg (Nat.not_le.mpr hexp), if_neg (Nat.not_lt.mpr hiat)]
    simp [consumeOpts, expectedMismatch, sessionMismatch,
      alookup_cleanup_some hj hfut]
  refine ⟨?_, hrep, ?_⟩
  · intro t opts now used j e hj hfut
    rcases verifyToken_state_cases t opts now used with h | h | ⟨pj, pe, hpj, h⟩
    · rw [h, hj]
    · rw [h, alookup_cleanup_some hj hfut]
    · rw [h, alookup_aset_ne]
      · exact alookup_cleanup_some hj hfut
      · intro hne
        rw [← hne, alookup_cleanup_some hj hfut] at hpj
        exact Option.noConfusion hpj
  · intro p now used e wsId hj hfut hroom hpeer hjti hiat0 hexp0 hexp hiat
    constructor
    · unfold connectionGate
      rw [if_neg (signToken_ne_nil p),
        hrep p now used e hj hfut hroom hpeer hjti hiat0 hexp0 hexp hiat]
      rfl
    · exact ⟨"invalid token: ", "", by decide⟩

/-- The counterexample trace state is reachable. -/
theorem trState8_reachable : Reachable trState8 :=
  Relation.ReflTransGen.tail
    (Relation.ReflTransGen.tail
      (Relation.ReflTransGen.tail
        (Relation.ReflTransGen.tail
          (Relation.ReflTransGen.tail
            (Relation.ReflTransGen.tail
              (Relation.ReflTransGen.tail
                (Relation.ReflTransGen.single
                  (Step.message anyConsume connA (joinMsg "s1") initState))
                (Step.message anyConsume connA createSendMsg trState1))
              (Step.message anyConsume connA produceMsg trState2))
            (Step.message anyConsume connB (joinMsg "s2") trState3))
          (Step.message anyConsume connC (joinMsg "s3") trState4))
        (Step.wsClose 2 trState5))
      (Step.grace "s2" trState6))
    (Step.message anyConsume connA produceMsg trState7)

/-- C1 (code bug evaluation): on the token-gated server a successful
audio `produce` by a joined peer with a ready send transport registers
the producer in the room index and in the peer's map, but it does not
attach the producer to the room's audio-level observer, broadcasts no
`newProducer` event to the other room member, and replies with the id
under the key `id` rather than `producerId` — against the specified
contract (and against the ungated variant, which does all three). -/
theorem claim_produce_divergence :
    c1Result.2 = [Out.sendTo 1 (OutMsg.response 3 true (RData.obj [("id", "prod2")]))]
    ∧ c1Result.2.all (fun o => !isNewProducerOut o) = true
    ∧ (alookup "r" c1Result.1.rooms).map RoomRec.attached = some []
    ∧ (alookup "r" c1Result.1.rooms).map (fun rm => alookup "prod2" rm.producers)
        = some (some ("p", MKind.audio))
    ∧ (alookup "r" c1Result.1.rooms).map (fun rm => alookup "q" rm.peers)
        = some (some "s3") := by
  decide

/-- C7 (code bug evaluation): a second `createTransport send` by a peer
that already holds send transport `t1` installs the new transport `t2`
without closing the old one: `t1` is still open afterwards, against the
specified close-first contract (and against the ungated variant, which
closes it). -/
theorem claim_createTransport_divergence :
    ("t1" ∈ c7Result.1.liveTransports)
    ∧ ("t2" ∈ c7Result.1.liveTransports)
    ∧ (alookup "s1" c7Result.1.sessions).map Client.send = some (some "t2")
    ∧ c7Result.2 = [Out.sendTo 1 (OutMsg.response 2 true (RData.obj
        [("id", "t2"), ("iceParameters", "ice:t2"), ("iceCandidates", "candidates:t2"),
         ("dtlsParameters", "dtls:t2")]))] := by
  decide

/-- C3 (counterexample): it is not the case that in every reachable state
every producer-index entry's owner, resolved through the room's peer map,
is a member holding the id in its own producer map.  At `trState8` the
index of room `r` holds `prod3` owned by peer id `p`, but `p` is not in
the room's peer map at all (a second session with the same token peer id
joined and was later destroyed, removing the shared peer id from the
room). -/
theorem claim_producer_ownership_counterexample :
    ¬ (∀ st : ServerState, Reachable st → claimC3check st = true) := by
  intro h
  have h8 := h trState8 trState8_reachable
  exact absurd h8 (by decide)

/-- C8: for a `consume` request whose producer-index entry is owned by the
requesting peer itself, the handler fails with `cannot consume self`
whatever the router's consumability oracle says — the result does not
depend on the oracle at all, because the self check precedes the
`canConsume` call; the oracle is consulted only for producers owned by
other peers (second conjunct: with another owner and a refusing oracle
the failure is the post-check `cannot consume` error). -/
theorem claim_consume_self :
    (∀ (canC canC' : String → Bool) (st : ServerState) (aroom : String)
        (msg : ClientMsg) (peer : Client) (rid rt : String) (room : RoomRec)
        (entry : String × MKind),
      msg.type = "consume" →
      msg.payload.sessionId ≠ "" →
      alookup msg.payload.sessionId st.sessions = some peer →
      peer.roomId = some rid →
      requireRoomIdMatch aroom rid = Except.ok rid →
      msg.payload.producerId ≠ "" →
      peer.recv = some rt →
      alookup rid st.rooms = some room →
      msg.payload.hasRtpCapabilities = true →
      alookup msg.payload.producerId room.producers = some entry →
      entry.1 = peer.peerId →
      handleRest canC st aroom msg = Except.error "cannot consume self"
      ∧ handleRest canC st aroom msg = handleRest canC' st aroom msg)
    ∧ (∀ (canC : String → Bool) (st : ServerState) (aroom : String)
        (msg : ClientMsg) (peer : Client) (rid rt : String) (room : RoomRec)
        (entry : String × MKind),
      msg.type = "consume" →
      msg.payload.sessionId ≠ "" →
      alookup msg.payload.sessionId st.sessions = some peer →
      peer.roomId = some rid →
      requireRoomIdMatch aroom rid = Except.ok rid →
      msg.payload.producerId ≠ "" →
      peer.recv = some rt →
      alookup rid st.rooms = some room →
      msg.payload.hasRtpCapabilities = true →
      alookup msg.payload.producerId room.producers = some entry →
      entry.1 ≠ peer.peerId →
      canC msg.payload.producerId = false →
      handleRest canC st aroom msg = Except.error "cannot consume (rtpCapabilities)") := by
  constructor
  · intro canC canC' st aroom msg peer rid rt room entry htype hsid hpeer hroom hcheck
      hpid hrecv hroomlk hcaps hentry hself
    have key : ∀ c : String → Bool,
        handleRest c st aroom msg = Except.error "cannot consume self" := by
      intro c
      simp [handleRest, dispatch, hConsume, htype, hsid, hpeer, hroom, hcheck, hpid,
        hrecv, hroomlk, hcaps, hentry, hself]
    exact ⟨key canC, (key canC).trans (key canC').symm⟩
  · intro canC st aroom msg peer rid rt room entry htype hsid hpeer hroom hcheck
      hpid hrecv hroomlk hcaps hentry hother hcanc
    simp [handleRest, dispatch, hConsume, htype, hsid, hpeer, hroom, hcheck, hpid,
      hrecv, hroomlk, hcaps, hentry, hother, hcanc]

/-- Witness for C8: a concrete one-room state in which the single producer
is owned by the requesting peer (first conjunct), and one in which it is
owned by someone else and the oracle refuses (second conjunct). -/
theorem claim_consume_self_witness :
    (handleRest anyConsume
        ⟨[("s1", ⟨"s1", "p", 1, some "r", none, some "t9", [], [], false⟩)],
         [("r", ⟨"r", "router0", [("p", "s1")], [("prodX", "p", MKind.audio)], [], []⟩)],
         [], [], [], 0⟩
        "r" ⟨"consume", 9, ⟨"", "s1", "", "", "prodX", "", false, false, true⟩⟩
      = Except.error "cannot consume self")
    ∧ (handleRest (fun _ => false)
        ⟨[("s1", ⟨"s1", "p", 1, some "r", none, some "t9", [], [], false⟩)],
         [("r", ⟨"r", "router0", [("p", "s1")], [("prodX", "z", MKind.audio)], [], []⟩)],
         [], [], [], 0⟩
        "r" ⟨"consume", 9, ⟨"", "s1", "", "", "prodX", "", false, false, true⟩⟩
      = Except.error "cannot consume (rtpCapabilities)") :=
  ⟨(claim_consume_self.1 anyConsume anyConsume _ "r" _
      ⟨"s1", "p", 1, some "r", none, some "t9", [], [], false⟩ "r" "t9"
      ⟨"r", "router0", [("p", "s1")], [("prodX", "p", MKind.audio)], [], []⟩
      ("p", MKind.audio) rfl (by decide) (by decide) rfl rfl (by decide)
      rfl (by decide) (by decide) (by decide) rfl).1,
   claim_consume_self.2 (fun _ => false) _ "r" _
      ⟨"s1", "p", 1, some "r", none, some "t9", [], [], false⟩ "r" "t9"
      ⟨"r", "router0", [("p", "s1")], [("prodX", "z", MKind.audio)], [], []⟩
      ("z", MKind.audio) rfl (by decide) (by decide) rfl rfl (by decide)
      rfl (by decide) (by decide) (by decide) (by decide) rfl⟩

/-- C10: for every request type other than the four handshake/list types,
the dispatcher locates the target peer solely by `payload.sessionId` and
checks only the token-bound room: the resulting state change is the same
from any two authenticated connections bound to the same room, and the
whole result (state and outputs) never depends on the connection's
token-bound `peerId` or `sessionId`. -/
theorem claim_session_capability (canC : String → Bool) (st : ServerState)
    (msg : ClientMsg) (w1 w2 : Nat) (r pA sA pB sB : String)
    (h1 : msg.type ≠ "join") (h2 : msg.type ≠ "resumeSession")
    (h3 : msg.type ≠ "listProducers") (h4 : msg.type ≠ "getRoomProducers") :
    (handleMessage canC st ⟨w1, r, pA, sA⟩ msg).1
      = (handleMessage canC st ⟨w2, r, pB, sB⟩ msg).1
    ∧ handleMessage canC st ⟨w1, r, pA, sA⟩ msg
      = handleMessage canC st ⟨w1, r, pB, sB⟩ msg := by
  have hno : ¬ (msg.type = "listProducers" ∨ msg.type = "getRoomProducers") :=
    fun h => h.elim h3 h4
  constructor
  · simp only [handleMessage, if_neg h2, if_neg h1, if_neg hno]
    cases handleRest canC st r msg <;> rfl
  · simp only [handleMessage, if_neg h2, if_neg h1, if_neg hno]

/-- Witness for C10: a concrete `produce` request from two connections of
room `r` with different token peer and session ids. -/
theorem claim_session_capability_witness :
    (handleMessage anyConsume trState2 ⟨1, "r", "p", "s1"⟩ produceMsg).1
      = (handleMessage anyConsume trState2 ⟨2, "r", "p2", "s2"⟩ produceMsg).1
    ∧ handleMessage anyConsume trState2 ⟨1, "r", "p", "s1"⟩ produceMsg
      = handleMessage anyConsume trState2 ⟨1, "r", "p2", "s2"⟩ produceMsg :=
  claim_session_capability anyConsume trState2 produceMsg 1 2 "r" "p" "s1" "p2" "s2"
    (by decide) (by decide) (by decide) (by decide)

/-- Witness for C5 at a concrete recorded jti and token. -/
theorem claim_jti_single_use_witness :
    verifyToken (signToken ⟨"r1", "p1", none, "j1", 5, 100⟩) consumeOpts 50 [("j1", 100)]
      = (cleanupUsedJti 50 [("j1", 100)], Except.error "replayed")
    ∧ connectionGate (signToken ⟨"r1", "p1", none, "j1", 5, 100⟩) 50 [("j1", 100)] 7
      = (cleanupUsedJti 50 [("j1", 100)],
         [Out.closeWs 7 (some 1008) "invalid token: replayed"], none) :=
  ⟨claim_jti_single_use.2.1 ⟨"r1", "p1", none, "j1", 5, 100⟩ 50 [("j1", 100)] 100
      rfl (by decide) (by decide) (by decide) (by decide) (by decide) (by decide)
      (by decide) (by decide),
   (claim_jti_single_use.2.2 ⟨"r1", "p1", none, "j1", 5, 100⟩ 50 [("j1", 100)] 100 7
      rfl (by decide) (by decide) (by decide) (by decide) (by decide) (by decide)
      (by decide) (by decide)).1⟩

/-- Reachability of the one-member trace state. -/
theorem reach_trState1 : Reachable trState1 :=
  Relation.ReflTransGen.single (Step.message anyConsume connA (joinMsg "s1") initState)

/-- Reachability of the trace state with a send transport. -/
theorem reach_trState2 : Reachable trState2 :=
  Relation.ReflTransGen.tail reach_trState1
    (Step.message anyConsume connA createSendMsg trState1)

/-- Reachability of the trace state with a registered producer. -/
theorem reach_trState3 : Reachable trState3 :=
  Relation.ReflTransGen.tail reach_trState2
    (Step.message anyConsume connA produceMsg trState2)

/-- C2: in every reachable state, every room's `speaking` set is a subset
of the key set of the room's producer index.  (In the token-gated server
both sides are in fact always empty: no producer is ever attached to the
level observer, so no `volumes` tick can mark anything speaking.) -/
theorem claim_speaking_subset (st : ServerState) (h : Reachable st)
    (rk : String) (rm : RoomRec) (hlk : alookup rk st.rooms = some rm) :
    rm.speaking ⊆ rm.producers.map Prod.fst := by
  have hspk : rm.speaking = [] := ((inv_reachable h).2.2.1 _ (alookup_mem hlk)).2
  rw [hspk]
  exact List.nil_subset _

/-- Witness for C2 at the reachable one-member room state `trState1`. -/
theorem claim_speaking_subset_witness :
    alookup "r" trState1.rooms = some ⟨"r", "router0", [("p", "s1")], [], [], []⟩
    ∧ (RoomRec.mk "r" "router0" [("p", "s1")] [] [] []).speaking
      ⊆ (RoomRec.mk "r" "router0" [("p", "s1")] [] [] []).producers.map Prod.fst :=
  ⟨rfl, claim_speaking_subset trState1 reach_trState1 "r"
      ⟨"r", "router0", [("p", "s1")], [], [], []⟩ rfl⟩

/-- C3 (amended): in every reachable state, every entry of every room's
producer index is witnessed by a live session whose record carries the
entry's peer id and has that room as its current room.  (The claim as
stated — owner in the room's peer map, id in its producer map — fails;
see the counterexample.) -/
theorem claim_producer_ownership_amended (st : ServerState) (h : Reachable st)
    (rk : String) (rm : RoomRec) (hlk : alookup rk st.rooms = some rm) :
    ∀ pe ∈ rm.producers, ∃ sid c, alookup sid st.sessions = some c
      ∧ c.peerId = pe.2.1 ∧ c.roomId = some rk :=
  fun pe hpe => (inv_reachable h).2.2.2 _ (alookup_mem hlk) pe hpe

/-- Witness for the amended C3 at the reachable state `trState3`, whose
room index holds `prod2` owned by peer id `p`. -/
theorem claim_producer_ownership_amended_witness :
    alookup "r" trState3.rooms
      = some ⟨"r", "router0", [("p", "s1")], [("prod2", "p", MKind.audio)], [], []⟩
    ∧ ∃ sid c, alookup sid trState3.sessions = some c
        ∧ c.peerId = "p" ∧ c.roomId = some "r" :=
  ⟨rfl, claim_producer_ownership_amended trState3 reach_trState3 "r"
      ⟨"r", "router0", [("p", "s1")], [("prod2", "p", MKind.audio)], [], []⟩ rfl
      ("prod2", "p", MKind.audio) (by simp)⟩

/-- C9: every parsed message on an authenticated connection yields exactly
one response envelope, sent on that connection and carrying the request's
id; the message path emits no close with code 1008 and never closes the
requesting connection (the only close it can emit is the code-less close
of a displaced previous socket during adoption).  At the handshake, a
rejected token yields exactly one close with code 1008, and an accepted
token closes nothing. -/
theorem claim_failure_semantics :
    (∀ (canC : String → Bool) (st : ServerState) (conn : ConnInfo) (msg : ClientMsg),
      (∃ b d, ((handleMessage canC st conn msg).2.filter isRespOut)
          = [Out.sendTo conn.wsId (.response msg.requestId b d)])
      ∧ ∀ o ∈ (handleMessage canC st conn msg).2,
          isClose1008 o = false ∧ closesWs conn.wsId o = false)
    ∧ (∀ (tok : List Char) (now : Nat) (used : UsedJti) (wsId : Nat),
      ((connectionGate tok now used wsId).2.2 = none →
        ∃ reason, (connectionGate tok now used wsId).2.1
          = [Out.closeWs wsId (some 1008) reason])
      ∧ ((connectionGate tok now used wsId).2.2 ≠ none →
        ∀ o ∈ (connectionGate tok now used wsId).2.1, isClose1008 o = false)) := by
  constructor
  · intro canC st conn msg
    unfold handleMessage
    by_cases t1 : msg.type = "resumeSession"
    · rw [if_pos t1]
      exact handleResume_outs
    rw [if_neg t1]
    by_cases t2 : msg.type = "join"
    · rw [if_pos t2]
      exact handleJoin_outs
    rw [if_neg t2]
    by_cases t3 : msg.type = "listProducers" ∨ msg.type = "getRoomProducers"
    · rw [if_pos t3]
      rcases @handleList_outs st conn msg with ⟨b, d, hld⟩
      rw [hld]
      constructor
      · exact ⟨b, d, rfl⟩
      · intro o ho
        rw [List.mem_singleton] at ho
        subst ho
        exact ⟨rfl, rfl⟩
    rw [if_neg t3]
    rcases hr : handleRest canC st conn.tokenRoomId msg with e | p
    · simp only [hr]
      exact ⟨⟨false, _, fail_outs.1⟩, fail_outs.2⟩
    · simp only [hr]
      constructor
      · exact ⟨true, p.2, rfl⟩
      · intro o ho
        rw [List.mem_singleton] at ho
        subst ho
        exact ⟨rfl, rfl⟩
  · intro tok now used wsId
    unfold connectionGate
    by_cases h1 : tok = []
    · rw [if_pos h1]
      exact ⟨fun _ => ⟨"missing token", rfl⟩, fun hne => absurd rfl hne⟩
    rw [if_neg h1]
    rcases hv : verifyToken tok consumeOpts now used with ⟨used', res⟩
    rcases res with e | p
    · simp only [hv]
      exact ⟨fun _ => ⟨_, rfl⟩, fun hne => absurd rfl hne⟩
    · simp only [hv]
      by_cases h2 : p.roomId = ""
      · rw [if_pos h2]
        exact ⟨fun _ => ⟨_, rfl⟩, fun hne => absurd rfl hne⟩
      rw [if_neg h2]
      by_cases h3 : p.peerId = ""
      · rw [if_pos h3]
        exact ⟨fun _ => ⟨_, rfl⟩, fun hne => absurd rfl hne⟩
      rw [if_neg h3]
      by_cases h4 : p.roomId.trim = ""
      · rw [if_pos h4]
        exact ⟨fun _ => ⟨_, rfl⟩, fun hne => absurd rfl hne⟩
      rw [if_neg h4]
      by_cases h5 : p.peerId.trim = ""
      · rw [if_pos h5]
        exact ⟨fun _ => ⟨_, rfl⟩, fun hne => absurd rfl hne⟩
      rw [if_neg h5]
      refine ⟨fun hnone => absurd hnone (by simp), fun _ => ?_⟩
      intro o ho
      rw [List.mem_singleton] at ho
      subst ho
      rfl

/-- Witness for C9: the `join` request on the boot state produces exactly
one response on the requesting socket, and the empty-token handshake
closes socket 5 with code 1008. -/
theorem claim_failure_semantics_witness :
    (∃ b d, ((handleMessage anyConsume initState connA (joinMsg "s1")).2.filter isRespOut)
        = [Out.sendTo connA.wsId (.response (joinMsg "s1").requestId b d)])
    ∧ ∃ reason, (connectionGate [] 0 [] 5).2.1 = [Out.closeWs 5 (some 1008) reason] :=
  ⟨(claim_failure_semantics.1 anyConsume initState connA (joinMsg "s1")).1,
   (claim_failure_semantics.2 [] 0 [] 5).1 rfl⟩

end VoiceSFU
